import Mathlib

set_option maxHeartbeats 1000000

namespace PyFactory

/-! Shallow embedding of the PyFactory repository (src/pyfactory).
Shapes are the values flowing through the factory (shapes.py). -/

/-- Metadata values stored in a shape metadata mapping (Python stores
strings such as "left"/"right" and integers such as loop indices). -/
inductive MetaV where
| str (s : String)
| int (n : Int)
deriving DecidableEq

/-- Recognized shape colors, from config.SHAPE_COLORS. -/
def SHAPE_COLORS : List String :=
["red", "green", "blue", "yellow", "purple", "orange", "white", "gray"]

/-- Recognized shape types, from config.SHAPE_TYPES. -/
def SHAPE_TYPES : List String :=
["circle", "square", "triangle", "diamond", "star", "hexagon"]

mutual

/-- Embedding of shapes.Shape: shape_type, color, size, rotation, stacked
layers and a metadata mapping (drawing-only attributes are omitted). -/
inductive Shape where
| mk (shapeType : String) (color : String) (size : Int) (rotation : Int)
    (layers : ShapeLayers) (metadata : List (String × MetaV))

/-- The list of stacked layers of a shape (a mutual inductive is used in
place of a nested List so that structural recursion is available). -/
inductive ShapeLayers where
| nil
| cons (s : Shape) (rest : ShapeLayers)

end

namespace Shape

def shapeType : Shape → String
| .mk t _ _ _ _ _ => t

def color : Shape → String
| .mk _ c _ _ _ _ => c

def size : Shape → Int
| .mk _ _ sz _ _ _ => sz

def rotation : Shape → Int
| .mk _ _ _ r _ _ => r

def layers : Shape → ShapeLayers
| .mk _ _ _ _ l _ => l

def metadata : Shape → List (String × MetaV)
| .mk _ _ _ _ _ m => m

end Shape

mutual

/-- Embedding of Shape.clone: a deep copy (layers cloned recursively,
metadata copied). -/
def Shape.clone : Shape → Shape
| .mk t c sz r l m => .mk t c sz r (ShapeLayers.clone l) m

def ShapeLayers.clone : ShapeLayers → ShapeLayers
| .nil => .nil
| .cons s rest => .cons (Shape.clone s) (ShapeLayers.clone rest)

end

def ShapeLayers.length : ShapeLayers → Nat
| .nil => 0
| .cons _ rest => 1 + ShapeLayers.length rest

mutual

/-- Embedding of Shape.matches: structural comparison of shape_type,
color, rotation and (recursively, after a length check) layers; size and
metadata are not compared. -/
def Shape.matches : Shape → Shape → Bool
| .mk t1 c1 _ r1 l1 _, .mk t2 c2 _ r2 l2 _ =>
    if t1 ≠ t2 then false
    else if c1 ≠ c2 then false
    else if r1 ≠ r2 then false
    else if ShapeLayers.length l1 ≠ ShapeLayers.length l2 then false
    else ShapeLayers.matchesZip l1 l2

/-- The zip-based pairwise layer comparison of Shape.matches: pairing
stops at the shorter list, exactly as Python zip does. -/
def ShapeLayers.matchesZip : ShapeLayers → ShapeLayers → Bool
| .nil, _ => true
| .cons _ _, .nil => true
| .cons a as, .cons b bs => Shape.matches a b && ShapeLayers.matchesZip as bs

end

/-- Embedding of Shape.rotate: adds the degrees and normalizes modulo 360
(Python % on ints yields a value in [0, 360) for the positive modulus). -/
def Shape.rotate (s : Shape) (degrees : Int) : Shape :=
.mk s.shapeType s.color s.size ((s.rotation + degrees) % 360) s.layers s.metadata

/-- Embedding of Shape.paint: changes the color only when the new color is
in the recognized SHAPE_COLORS set; otherwise leaves the shape unchanged. -/
def Shape.paint (s : Shape) (newColor : String) : Shape :=
if newColor ∈ SHAPE_COLORS then
  .mk s.shapeType newColor s.size s.rotation s.layers s.metadata
else s

mutual

theorem shapeClone_eq : ∀ s : Shape, Shape.clone s = s
| .mk t c sz r l m => by
  rw [Shape.clone, layersClone_eq l]

theorem layersClone_eq : ∀ l : ShapeLayers, ShapeLayers.clone l = l
| .nil => rfl
| .cons a as => by
  rw [ShapeLayers.clone, shapeClone_eq a, layersClone_eq as]

end

mutual

theorem Shape.matches_self : ∀ s : Shape, Shape.matches s s = true
| .mk t c sz r l m => by
  rw [Shape.matches]
  simp [ShapeLayers.matchesZip_self l]

theorem ShapeLayers.matchesZip_self : ∀ l : ShapeLayers, ShapeLayers.matchesZip l l = true
| .nil => rfl
| .cons a as => by
  rw [ShapeLayers.matchesZip, Shape.matches_self a, ShapeLayers.matchesZip_self as]
  rfl

end

/-- A freshly constructed white circle, as Shape(circle, white) builds it. -/
def whiteCircle : Shape := Shape.mk "circle" "white" 40 0 .nil []

/-- A white circle already rotated by 90 degrees (reachable via one
rotate(90) call on a fresh shape). -/
def whiteCircle90 : Shape := whiteCircle.rotate 90

/-- Claim C8 counterexample: the claim says that for EVERY shape, four
rotate(90) calls yield rotationDegrees equal to 0.  For a shape whose
current rotation is 90 (obtained from a fresh shape by one rotate(90)
call), four further rotate(90) calls yield rotation 90, not 0. -/
theorem rotate_full_turn_nonzero_rotation_cex :
    ((((whiteCircle90.rotate 90).rotate 90).rotate 90).rotate 90).rotation = 90 ∧
    ¬ ((((whiteCircle90.rotate 90).rotate 90).rotate 90).rotate 90).rotation = 0 := by
  constructor <;> decide

/-- Claim C8 (amended): four rotate(90) calls return the rotation to the
original value reduced modulo 360 (hence to 0 exactly when the original
rotation was 0, e.g. on a freshly constructed shape) and leave every
other field unchanged; and after any rotate(degrees) call the rotation
is a non-negative value strictly below 360. -/
theorem rotate_full_turn_mod_and_range :
    (∀ s : Shape, (((s.rotate 90).rotate 90).rotate 90).rotate 90 =
      Shape.mk s.shapeType s.color s.size (s.rotation % 360) s.layers s.metadata) ∧
    (∀ (s : Shape) (d : Int), 0 ≤ (s.rotate d).rotation ∧ (s.rotate d).rotation < 360) := by
  constructor
  · intro s
    obtain ⟨t, c, sz, r, l, m⟩ := s
    simp only [Shape.rotate, Shape.shapeType, Shape.color, Shape.size, Shape.rotation,
      Shape.layers, Shape.metadata, Shape.mk.injEq, and_true, true_and]
    omega
  · intro s d
    obtain ⟨t, c, sz, r, l, m⟩ := s
    simp only [Shape.rotate, Shape.rotation]
    omega

/-- Claim C9 counterexample: the claim says matches(clone().paint(c)) is
false for EVERY color c different from the shape color.  For the
unrecognized color "crimson", paint is a silent no-op, so the clone still
matches: the claimed falsehood fails. -/
theorem matches_paint_unrecognized_color_cex :
    "crimson" ≠ whiteCircle.color ∧
    Shape.matches whiteCircle ((whiteCircle.clone).paint "crimson") = true := by
  constructor <;> decide

/-- Claim C9 (amended): shape.matches(shape.clone()) always holds, and
shape.matches(shape.clone().paint(c)) is false for every RECOGNIZED
color c (a member of SHAPE_COLORS) different from the shape color; for
unrecognized colors paint is a no-op and the clone still matches. -/
theorem matches_clone_and_paint_recognized :
    (∀ s : Shape, Shape.matches s s.clone = true) ∧
    (∀ (s : Shape) (c : String), c ∈ SHAPE_COLORS → c ≠ s.color →
      Shape.matches s ((s.clone).paint c) = false) := by
  constructor
  · intro s
    rw [shapeClone_eq]
    exact Shape.matches_self s
  · intro s c hmem hne
    obtain ⟨t, c0, sz, r, l, m⟩ := s
    rw [shapeClone_eq]
    simp only [Shape.paint, Shape.color, Shape.shapeType, Shape.size, Shape.rotation,
      Shape.layers, Shape.metadata] at *
    rw [if_pos hmem, Shape.matches]
    simp [Ne.symm hne]

/-- Witness for the amended C9 theorem at a concrete recognized color. -/
theorem matches_clone_and_paint_recognized_witness :
    Shape.matches whiteCircle (whiteCircle.clone) = true ∧
    ("red" ∈ SHAPE_COLORS ∧ "red" ≠ whiteCircle.color ∧
      Shape.matches whiteCircle ((whiteCircle.clone).paint "red") = false) :=
  ⟨matches_clone_and_paint_recognized.1 whiteCircle,
   by decide,
   by decide,
   matches_clone_and_paint_recognized.2 whiteCircle "red" (by decide) (by decide)⟩

/-! Embedding of code_parser.CodeParser (code_parser.py).  Lines are lists
of characters; the two regular expressions of the source are implemented
as deterministic matchers (their character classes are pairwise disjoint
at every backtracking point, so maximal munch is faithful). -/

/-- Python str.strip character set (whitespace). -/
def isPySpace (c : Char) : Bool :=
c == ' ' || c == '\t' || c == '\n' || c == '\r' || c == '\x0b' || c == '\x0c'

/-- A regex word character (ASCII reading of \w). -/
def isWordChar (c : Char) : Bool :=
c.isAlphanum || c == '_'

/-- Python str.strip: remove leading and trailing whitespace. -/
def strip (l : List Char) : List Char :=
((l.dropWhile isPySpace).reverse.dropWhile isPySpace).reverse

/-- Python substring containment (the `in` operator on strings). -/
def containsSub (pat l : List Char) : Bool :=
(l.tails).any (fun t => pat.isPrefixOf t)

/-- Python ASCII-lowering of a string (str.lower). -/
def lowerStr (l : List Char) : List Char :=
l.map Char.toLower

/-- The greedy tail of the assignment regex, `(.*)\)` applied with
re.match semantics: succeeds iff a right parenthesis occurs, capturing
everything before the LAST right parenthesis (text after it is ignored,
since re.match does not anchor the end). -/
def lastRParenSplit (r : List Char) : Option (List Char) :=
match (r.reverse).dropWhile (fun c => c != ')') with
| [] => none
| c :: restRev => if c == ')' then some (restRev.reverse) else none

/-- The assignment regex of _parse_assignment,
`(\w+)\s*=\s*(\w+)\s*\((.*)\)` under re.match: returns the variable name,
the type name and the raw argument text. -/
def matchAssign (l : List Char) : Option (List Char × List Char × List Char) :=
let p1 := l.span isWordChar
if p1.1.isEmpty then none
else
  match (p1.2).dropWhile isPySpace with
  | [] => none
  | c :: r3 =>
    if c == '=' then
      let r4 := r3.dropWhile isPySpace
      let p2 := r4.span isWordChar
      if p2.1.isEmpty then none
      else
        match (p2.2).dropWhile isPySpace with
        | [] => none
        | c2 :: r7 =>
          if c2 == '(' then
            match lastRParenSplit r7 with
            | some args => some (p1.1, p2.1, args)
            | none => none
          else none
    else none

/-- The connection regex of _parse_connection,
`(\w+)\.connect\s*\(\s*(\w+)\s*\)` under re.match: returns the two
variable names. -/
def matchConnect (l : List Char) : Option (List Char × List Char) :=
let p1 := l.span isWordChar
if p1.1.isEmpty then none
else if ((".connect").toList).isPrefixOf p1.2 then
  match ((p1.2).drop 8).dropWhile isPySpace with
  | [] => none
  | c :: r3 =>
    if c == '(' then
      let r4 := r3.dropWhile isPySpace
      let p2 := r4.span isWordChar
      if p2.1.isEmpty then none
      else
        match (p2.2).dropWhile isPySpace with
        | [] => none
        | c2 :: _ =>
          if c2 == ')' then some (p1.1, p2.1) else none
    else none
else none

/-- Python str.split on a comma (always at least one part). -/
def splitOnCommaGo : List Char → List Char → List (List Char)
| [], cur => [cur.reverse]
| c :: rest, cur =>
  if c == ',' then cur.reverse :: splitOnCommaGo rest []
  else splitOnCommaGo rest (c :: cur)

def splitOnComma (l : List Char) : List (List Char) :=
splitOnCommaGo l []

/-- Quote removal of _parse_args: a part both starting and ending with a
double quote (or both with a single quote) loses its first and last
character (a lone quote character satisfies both tests and becomes
empty, exactly as the Python slice [1:-1] does). -/
def stripQuotes (p : List Char) : List Char :=
if p.head? == some '"' && p.getLast? == some '"' then (p.drop 1).dropLast
else if p.head? == some '\x27' && p.getLast? == some '\x27' then (p.drop 1).dropLast
else p

/-- Embedding of CodeParser._parse_args: empty-after-strip yields no
arguments, otherwise split on commas, strip each part and remove
surrounding quotes.  The Python int-keyed dict with keys 0..n-1 is a
list. -/
def parseArgs (s : List Char) : List (List Char) :=
if (strip s).isEmpty then []
else (splitOnComma s).map (fun p => stripQuotes (strip p))

/-- Python int(...) on a string: strip whitespace, optional sign, then a
non-empty digit sequence in which single underscores may separate
digits.  Returns none where Python int() raises ValueError. -/
def pyIntDigitsGo : List Char → Nat → Bool → Option Nat
| [], acc, prevDigit => if prevDigit then some acc else none
| c :: rest, acc, prevDigit =>
  if c.isDigit then pyIntDigitsGo rest (acc * 10 + (c.toNat - 48)) true
  else if c == '_' then
    if prevDigit then pyIntDigitsGo rest acc false else none
  else none

def parsePyInt (l : List Char) : Option Int :=
match strip l with
| [] => none
| c :: rest =>
  if c == '-' then (pyIntDigitsGo rest 0 false).map (fun n => -(n : Int))
  else if c == '+' then (pyIntDigitsGo rest 0 false).map (fun n => (n : Int))
  else (pyIntDigitsGo (c :: rest) 0 false).map (fun n => (n : Int))

/-- The machine-kind names accepted by _get_machine_type (the type map
is the identity on these eight lowercase names). -/
def knownTypes : List (List Char) :=
[("source").toList, ("painter").toList, ("rotator").toList, ("splitter").toList,
 ("output").toList, ("looper").toList, ("function").toList, ("packer").toList]

/-- Kind-specific fields stored by _parse_assignment: Source keeps shape
type and color, Painter a target color, Rotator an integer rotation;
Splitter and Output store nothing; the remaining known kinds (looper,
function, packer) take no branch of the chain at all. -/
inductive MExtra where
| source (shapeType color : List Char)
| painter (targetColor : List Char)
| rotator (rotation : Int)
| splitter
| output
| plain
deriving DecidableEq

/-- The line-number- and position-independent part of a parsed
assignment. -/
structure AssignData where
  varName : List Char
  mtype : List Char
  args : List (List Char)
  extra : MExtra
deriving DecidableEq

/-- One machine configuration appended by _parse_assignment. -/
structure PMachine where
  varName : List Char
  mtype : List Char
  x : Int
  y : Int
  args : List (List Char)
  line : Nat
  extra : MExtra
deriving DecidableEq

/-- Embedding of CodeParser._parse_assignment without the line number
and layout position: regex match, known-type check, argument parsing and
the kind-specific field chain (the error strings mirror the Python
messages; the int() failure text approximates the ValueError text). -/
def parseAssignmentCore (line : List Char) : Except String AssignData :=
match matchAssign line with
| none => .error (String.mk ((("语法错误: ").toList) ++ line))
| some (v, t, argsStr) =>
  let mt := lowerStr t
  if knownTypes.contains mt then
    let args := parseArgs argsStr
    if mt == ("source").toList then
      .ok ⟨v, mt, args, .source (args.getD 0 (("circle").toList)) (args.getD 1 (("white").toList))⟩
    else if mt == ("painter").toList then
      .ok ⟨v, mt, args, .painter (args.getD 0 (("red").toList))⟩
    else if mt == ("rotator").toList then
      match args.head? with
      | none => .ok ⟨v, mt, args, .rotator 90⟩
      | some a =>
        match parsePyInt a with
        | some n => .ok ⟨v, mt, args, .rotator n⟩
        | none => .error (String.mk ((("invalid literal for int() with base 10: ").toList) ++ a))
    else if mt == ("splitter").toList then .ok ⟨v, mt, args, .splitter⟩
    else if mt == ("output").toList then .ok ⟨v, mt, args, .output⟩
    else .ok ⟨v, mt, args, .plain⟩
  else .error (String.mk ((("未知的机器类型: ").toList) ++ mt))

/-- The machine configuration dict of _parse_assignment (y is fixed at
3). -/
def buildMachine (c : AssignData) (lineNum : Nat) (xPos : Int) : PMachine :=
⟨c.varName, c.mtype, xPos, 3, c.args, lineNum, c.extra⟩

def parseAssignment (line : List Char) (lineNum : Nat) (xPos : Int) : Except String PMachine :=
(parseAssignmentCore line).map (fun c => buildMachine c lineNum xPos)

/-- The name-to-index table update: Python dict assignment (replace the
existing entry for an equal key, else append). -/
def setVar : List (List Char × Nat) → List Char → Nat → List (List Char × Nat)
| [], k, v => [(k, v)]
| (k0, v0) :: rest, k, v =>
  if k0 == k then (k, v) :: rest else (k0, v0) :: setVar rest k v

/-- Embedding of CodeParser._parse_connection: regex match then two
name-table lookups (first failing lookup raises). -/
def parseConnection (line : List Char) (vars : List (List Char × Nat)) :
    Except String (Nat × Nat) :=
match matchConnect line with
| none => .error (String.mk ((("连接语法错误: ").toList) ++ line))
| some (a, b) =>
  match List.lookup a vars with
  | none => .error (String.mk ((("未定义的变量: ").toList) ++ a))
  | some ia =>
    match List.lookup b vars with
    | none => .error (String.mk ((("未定义的变量: ").toList) ++ b))
    | some ib => .ok (ia, ib)

/-- The parser state of CodeParser.parse: accumulated machines, variable
table, connections, error report and the automatic-layout x cursor. -/
structure PState where
  machines : List PMachine
  vtable : List (List Char × Nat)
  connections : List (Nat × Nat)
  error : Option String
  errorLine : Int
  machineX : Int
deriving DecidableEq

def initState : PState :=
⟨[], [], [], none, -1, 1⟩

/-- The skip test of the parse loop, applied to a stripped line: blank
lines and lines starting with a hash sign are skipped. -/
def isSkipLine (s : List Char) : Bool :=
s.isEmpty || s.head? == some '#'

/-- The assignment classification of the parse loop, applied to a
stripped line: contains = and does not contain .connect. -/
def isAssignClass (s : List Char) : Bool :=
containsSub (("=").toList) s && !(containsSub ((".connect").toList) s)

/-- One iteration of the parse loop: strip the line, skip blank and
comment lines, classify (assignment if it contains = and not .connect,
else connection if it contains .connect-with-paren), record the result
or the first error.  Any other line falls through the if/elif chain and
is skipped. -/
def processLine (st : PState) (lineNum : Nat) (rawLine : List Char) : PState :=
let line := strip rawLine
if isSkipLine line then st
else if isAssignClass line then
  match parseAssignment line lineNum st.machineX with
  | .ok m =>
    { st with machines := st.machines ++ [m],
              vtable := setVar st.vtable m.varName st.machines.length,
              machineX := st.machineX + 2 }
  | .error e => { st with error := some e, errorLine := (lineNum : Int) }
else if containsSub ((".connect(").toList) line then
  match parseConnection line st.vtable with
  | .ok p => { st with connections := st.connections ++ [p] }
  | .error e => { st with error := some e, errorLine := (lineNum : Int) }
else st

/-- The enumerate loop of CodeParser.parse, stopping after the first
line that records an error (the Python break). -/
def parseLoop : PState → Nat → List (List Char) → PState
| st, _, [] => st
| st, i, l :: ls =>
  let st1 := processLine st i l
  if st1.error.isSome then st1 else parseLoop st1 (i + 1) ls

def parseLines (lines : List (List Char)) : PState :=
parseLoop initState 0 lines

/-- Embedding of CodeParser.parse: split the source on newlines and run
the loop from a fresh state. -/
def parse (code : String) : PState :=
parseLines ((code.splitOn ("\n")).map String.toList)

/-- A non-blank, non-comment line containing neither an equals sign nor
the .connect( marker. -/
def junkLine : List Char :=
("hello world").toList

/-- Claim C4 counterexample: the claim says the parser reports a syntax
error on every non-blank, non-comment line containing neither = nor
.connect(.  The source "hello world" is such a line, yet parsing it
returns no error at all and leaves the state untouched: the line is
silently skipped by the if/elif chain. -/
theorem junk_line_no_error_cex :
    (strip junkLine).isEmpty = false ∧
    ((strip junkLine).head? == some '#') = false ∧
    containsSub (("=").toList) (strip junkLine) = false ∧
    containsSub ((".connect(").toList) (strip junkLine) = false ∧
    (parseLines [junkLine]).error = none ∧
    parseLines [junkLine] = initState := by
  refine ⟨by decide, by decide, by decide, by decide, by decide, by decide⟩

/-- Claim C4 (amended): a non-blank, non-comment line containing neither
= nor .connect( is silently skipped: it leaves the parser state
completely unchanged and in particular produces no syntax error. -/
theorem junk_line_skipped (st : PState) (i : Nat) (l : List Char)
    (h1 : (strip l).isEmpty = false)
    (h2 : ((strip l).head? == some '#') = false)
    (h3 : containsSub (("=").toList) (strip l) = false)
    (h4 : containsSub ((".connect(").toList) (strip l) = false) :
    processLine st i l = st := by
  unfold processLine isSkipLine isAssignClass
  simp only [h1, h2, h3, h4]
  simp

/-- Witness for the amended C4 theorem at a concrete junk line. -/
theorem junk_line_skipped_witness :
    processLine initState 3 junkLine = initState :=
  junk_line_skipped initState 3 junkLine (by decide) (by decide) (by decide) (by decide)

/-- A skipped line leaves the state unchanged. -/
theorem processLine_skip (st : PState) (i : Nat) (l : List Char)
    (h : isSkipLine (strip l) = true) : processLine st i l = st := by
  unfold processLine
  dsimp only
  rw [if_pos h]

/-- A successfully parsed assignment line appends one machine at the
current layout position, records the identifier and advances x by 2. -/
theorem processLine_assign (st : PState) (i : Nat) (l : List Char) (c : AssignData)
    (h1 : isSkipLine (strip l) = false) (h2 : isAssignClass (strip l) = true)
    (h3 : parseAssignmentCore (strip l) = .ok c) :
    processLine st i l =
      { st with machines := st.machines ++ [buildMachine c i st.machineX],
                vtable := setVar st.vtable c.varName st.machines.length,
                machineX := st.machineX + 2 } := by
  unfold processLine
  dsimp only
  rw [if_neg (by simp [h1]), if_pos h2]
  unfold parseAssignment
  rw [h3]
  rfl

/-- A successfully parsed connection line appends one connection. -/
theorem processLine_connect (st : PState) (i : Nat) (l : List Char) (p : Nat × Nat)
    (h1 : isSkipLine (strip l) = false) (h2 : isAssignClass (strip l) = false)
    (h4 : containsSub ((".connect(").toList) (strip l) = true)
    (h3 : parseConnection (strip l) st.vtable = .ok p) :
    processLine st i l = { st with connections := st.connections ++ [p] } := by
  unfold processLine
  dsimp only
  rw [if_neg (by simp [h1]), if_neg (by simp [h2]), if_pos h4, h3]

/-- Unfolding one step of the loop when the processed line is
error-free. -/
theorem parseLoop_cons (st : PState) (i : Nat) (l : List Char) (ls : List (List Char))
    (h : (processLine st i l).error = none) :
    parseLoop st i (l :: ls) = parseLoop (processLine st i l) (i + 1) ls := by
  rw [show parseLoop st i (l :: ls) =
      (if (processLine st i l).error.isSome then processLine st i l
       else parseLoop (processLine st i l) (i + 1) ls) from rfl]
  rw [h]
  simp

/-- Exhaustive description of one loop iteration: the line is skipped, a
machine is appended, a connection is appended, or an error is recorded
at the given line number with everything else unchanged. -/
theorem processLine_result (st : PState) (i : Nat) (l : List Char) :
    processLine st i l = st ∨
    (∃ m, processLine st i l =
      { st with machines := st.machines ++ [m],
                vtable := setVar st.vtable m.varName st.machines.length,
                machineX := st.machineX + 2 }) ∨
    (∃ p, processLine st i l = { st with connections := st.connections ++ [p] }) ∨
    (∃ e, processLine st i l = { st with error := some e, errorLine := (i : Int) }) := by
  unfold processLine
  dsimp only
  repeat' split
  all_goals first
    | exact Or.inl rfl
    | exact Or.inr (Or.inl ⟨_, rfl⟩)
    | exact Or.inr (Or.inr (Or.inl ⟨_, rfl⟩))
    | exact Or.inr (Or.inr (Or.inr ⟨_, rfl⟩))

/-- When a line turns an error-free state into an erroneous one, the
machines and connections are exactly those accumulated before, and the
recorded line number is the index of that line. -/
theorem processLine_first_error (st : PState) (i : Nat) (l : List Char)
    (h0 : st.error = none) (h : (processLine st i l).error ≠ none) :
    (processLine st i l).machines = st.machines ∧
    (processLine st i l).connections = st.connections ∧
    (processLine st i l).errorLine = (i : Int) := by
  rcases processLine_result st i l with hr | ⟨m, hr⟩ | ⟨p, hr⟩ | ⟨e, hr⟩ <;>
    rw [hr] at h ⊢ <;> simp_all

/-- Splitting the parse loop at an error-free prefix. -/
theorem parseLoop_append (as : List (List Char)) :
    ∀ (st : PState) (i : Nat) (bs : List (List Char)),
      (parseLoop st i as).error = none →
      parseLoop st i (as ++ bs) = parseLoop (parseLoop st i as) (i + as.length) bs := by
  induction as with
  | nil =>
    intro st i bs _
    simp [parseLoop]
  | cons a as ih =>
    intro st i bs h
    rw [List.cons_append]
    rw [show parseLoop st i (a :: as) =
        (if (processLine st i a).error.isSome then processLine st i a
         else parseLoop (processLine st i a) (i + 1) as) from rfl] at h
    rw [show parseLoop st i (a :: (as ++ bs)) =
        (if (processLine st i a).error.isSome then processLine st i a
         else parseLoop (processLine st i a) (i + 1) (as ++ bs)) from rfl]
    rw [show parseLoop st i (a :: as) =
        (if (processLine st i a).error.isSome then processLine st i a
         else parseLoop (processLine st i a) (i + 1) as) from rfl]
    by_cases hc : (processLine st i a).error.isSome
    · rw [if_pos hc] at h
      rw [h] at hc
      simp at hc
    · rw [if_neg hc] at h
      rw [if_neg hc, if_neg hc]
      have hlen : i + (a :: as).length = (i + 1) + as.length := by
        simp only [List.length_cons]
        omega
      rw [hlen]
      exact ih (processLine st i a) (i + 1) bs h

/-- Claim C3: when every line before index pre.length parses without
error and the line at that index raises, the parse of the whole source
stops there: the result is exactly the state after processing that line,
its errorLine is the 0-based index of the offending line, and its
machines and connections are those accumulated from strictly earlier
lines; the lines after the error contribute nothing. -/
theorem parse_first_error_frame (pre : List (List Char)) (l : List Char)
    (rest : List (List Char))
    (h1 : (parseLoop initState 0 pre).error = none)
    (h2 : (processLine (parseLoop initState 0 pre) pre.length l).error ≠ none) :
    parseLines (pre ++ l :: rest) =
      processLine (parseLoop initState 0 pre) pre.length l ∧
    (parseLines (pre ++ l :: rest)).error ≠ none ∧
    (parseLines (pre ++ l :: rest)).errorLine = (pre.length : Int) ∧
    (parseLines (pre ++ l :: rest)).machines = (parseLoop initState 0 pre).machines ∧
    (parseLines (pre ++ l :: rest)).connections = (parseLoop initState 0 pre).connections := by
  have hmain : parseLines (pre ++ l :: rest) =
      processLine (parseLoop initState 0 pre) pre.length l := by
    unfold parseLines
    rw [parseLoop_append pre initState 0 (l :: rest) h1]
    rw [show parseLoop (parseLoop initState 0 pre) (0 + pre.length) (l :: rest) =
        (if (processLine (parseLoop initState 0 pre) (0 + pre.length) l).error.isSome then
          processLine (parseLoop initState 0 pre) (0 + pre.length) l
         else parseLoop (processLine (parseLoop initState 0 pre) (0 + pre.length) l)
           (0 + pre.length + 1) rest) from rfl]
    rw [Nat.zero_add]
    rw [if_pos (Option.isSome_iff_ne_none.mpr h2)]
  have hframe := processLine_first_error (parseLoop initState 0 pre) pre.length l h1 h2
  refine ⟨hmain, ?_, ?_, ?_, ?_⟩ <;> rw [hmain]
  · exact h2
  · exact hframe.2.2
  · exact hframe.1
  · exact hframe.2.1

/-- A valid assignment line (used as the error-free prefix). -/
def preW : List (List Char) :=
[("a = Source(circle, white)").toList]

/-- A connection line naming an undeclared identifier (raises 未定义的变量). -/
def lineW : List Char :=
("a.connect(b)").toList

/-- A line after the error, which must contribute nothing. -/
def restW : List (List Char) :=
[("c = Output()").toList]

/-- Validity of a connection line relative to the set of identifiers
declared on earlier lines: the regex matches and both identifiers were
declared. -/
def connectOk (env : List (List Char)) (s : List Char) : Bool :=
match matchConnect s with
| some (a, b) => decide (a ∈ env) && decide (b ∈ env)
| none => false

/-- A source consisting only of blank/comment lines, well-formed
assignments with a known machine type, and well-formed connection lines
referencing only previously declared identifiers (the hypothesis of
claim C1).  The classification order mirrors the parse loop. -/
def validSrc : List (List Char) → List (List Char) → Bool
| _, [] => true
| env, l :: ls =>
  if isSkipLine (strip l) then validSrc env ls
  else if isAssignClass (strip l) then
    match parseAssignmentCore (strip l) with
    | .ok c => validSrc (c.varName :: env) ls
    | .error _ => false
  else if containsSub ((".connect(").toList) (strip l) then
    connectOk env (strip l) && validSrc env ls
  else false

/-- A line the loop classifies as an assignment. -/
def isAssignLine (l : List Char) : Bool :=
!(isSkipLine (strip l)) && isAssignClass (strip l)

/-- A line the loop classifies as a connection directive. -/
def isConnectLine (l : List Char) : Bool :=
!(isSkipLine (strip l)) && !(isAssignClass (strip l)) &&
  containsSub ((".connect(").toList) (strip l)

/-- Modelled from the claim C1 wording (the spec): one machine per
assignment line, in source order, with the k-th declared machine at
x = 1 + 2k and y fixed at 3; skipped and connection lines contribute no
machine. -/
def claimMachines : List (Nat × List Char) → Nat → List PMachine
| [], _ => []
| (i, l) :: rest, k =>
  if isSkipLine (strip l) then claimMachines rest k
  else if isAssignClass (strip l) then
    match parseAssignmentCore (strip l) with
    | .ok c => buildMachine c i (1 + 2 * (k : Int)) :: claimMachines rest (k + 1)
    | .error _ => claimMachines rest k
  else claimMachines rest k

/-- Keys after a Python-dict-style update: the new key together with the
old keys. -/
theorem setVar_keys (vars : List (List Char × Nat)) (k : List Char) (v : Nat) :
    ∀ x, x ∈ (setVar vars k v).map Prod.fst ↔ (x = k ∨ x ∈ vars.map Prod.fst) := by
  induction vars with
  | nil =>
    intro x
    simp [setVar]
  | cons p rest ih =>
    intro x
    obtain ⟨k0, v0⟩ := p
    rw [show setVar ((k0, v0) :: rest) k v =
        (if k0 == k then (k, v) :: rest else (k0, v0) :: setVar rest k v) from rfl]
    by_cases h : (k0 == k) = true
    · have hk : k0 = k := by simpa using h
      rw [if_pos h]
      subst hk
      simp only [List.map_cons, List.mem_cons]
      tauto
    · rw [if_neg (by simp_all)]
      simp only [List.map, List.mem_cons, ih x]
      tauto

/-- A key among the table keys is found by List.lookup. -/
theorem lookup_isSome_of_mem (a : List Char) (vars : List (List Char × Nat))
    (h : a ∈ vars.map Prod.fst) : (List.lookup a vars).isSome = true := by
  induction vars with
  | nil => simp at h
  | cons p rest ih =>
    obtain ⟨k, v⟩ := p
    simp only [List.map, List.mem_cons] at h
    rw [show List.lookup a ((k, v) :: rest) =
        (match a == k with
         | true => some v
         | false => List.lookup a rest) from rfl]
    by_cases hb : (a == k) = true
    · rw [hb]
      rfl
    · have hne : ¬ a = k := by simpa using hb
      rcases h with h | h
      · exact absurd h hne
      · rw [show (a == k) = false by simp [hne]]
        exact ih h

/-- A connection line whose identifiers are both in the table parses
successfully. -/
theorem parseConnection_ok (s : List Char) (vars : List (List Char × Nat))
    (a b : List Char) (hm : matchConnect s = some (a, b))
    (ha : (List.lookup a vars).isSome = true)
    (hb : (List.lookup b vars).isSome = true) :
    ∃ p, parseConnection s vars = .ok p := by
  unfold parseConnection
  rw [hm]
  obtain ⟨ia, hia⟩ := Option.isSome_iff_exists.mp ha
  obtain ⟨ib, hib⟩ := Option.isSome_iff_exists.mp hb
  simp only [hia, hib]
  exact ⟨(ia, ib), rfl⟩

/-- Every machine of the claim-side list sits at x = 1 + 2(k + j) and
y = 3. -/
theorem claimMachines_get (ps : List (Nat × List Char)) :
    ∀ (k j : Nat) (hj : j < (claimMachines ps k).length),
      ((claimMachines ps k).get ⟨j, hj⟩).x = 1 + 2 * ((k + j : Nat) : Int) ∧
      ((claimMachines ps k).get ⟨j, hj⟩).y = 3 := by
  induction ps with
  | nil =>
    intro k j hj
    simp [claimMachines] at hj
  | cons p rest ih =>
    intro k j
    obtain ⟨i, l⟩ := p
    rw [show claimMachines ((i, l) :: rest) k =
        (if isSkipLine (strip l) then claimMachines rest k
         else if isAssignClass (strip l) then
           match parseAssignmentCore (strip l) with
           | .ok c => buildMachine c i (1 + 2 * (k : Int)) :: claimMachines rest (k + 1)
           | .error _ => claimMachines rest k
         else claimMachines rest k) from rfl]
    by_cases h1 : isSkipLine (strip l) = true
    · rw [if_pos h1]
      exact ih k j
    · rw [if_neg (by simp [h1])]
      by_cases h2 : isAssignClass (strip l) = true
      · rw [if_pos h2]
        cases hpa : parseAssignmentCore (strip l) with
        | ok c =>
          cases j with
          | zero =>
            intro hj
            refine ⟨?_, rfl⟩
            simp [buildMachine]
          | succ j =>
            intro hj
            have hj2 : j < (claimMachines rest (k + 1)).length := by
              simpa using hj
            have hi := ih (k + 1) j hj2
            refine ⟨?_, hi.2⟩
            rw [show (((buildMachine c i (1 + 2 * (k : Int)) ::
                claimMachines rest (k + 1)).get ⟨j + 1, hj⟩)) =
                ((claimMachines rest (k + 1)).get ⟨j, hj2⟩) from rfl]
            rw [hi.1]
            push_cast
            ring
        | error e =>
          exact ih k j
      · rw [if_neg (by simp [h2])]
        exact ih k j

/-- Main loop invariant for valid sources: no error is recorded, the
machines are exactly the claim-side list built from the remaining
enumerated lines, and machine/connection counts match the
assignment/connection line counts. -/
theorem parseLoop_valid (ls : List (List Char)) :
    ∀ (st : PState) (i : Nat) (env : List (List Char)),
      validSrc env ls = true → st.error = none →
      (∀ a : List Char, a ∈ st.vtable.map Prod.fst ↔ a ∈ env) →
      st.machineX = 1 + 2 * (st.machines.length : Int) →
      (parseLoop st i ls).error = none ∧
      (parseLoop st i ls).errorLine = st.errorLine ∧
      (parseLoop st i ls).machines =
        st.machines ++ claimMachines (List.enumFrom i ls) st.machines.length ∧
      (parseLoop st i ls).machines.length =
        st.machines.length + (ls.filter isAssignLine).length ∧
      (parseLoop st i ls).connections.length =
        st.connections.length + (ls.filter isConnectLine).length := by
  induction ls with
  | nil =>
    intro st i env hv h0 hvt hx
    simp [parseLoop, claimMachines, List.enumFrom, h0]
  | cons l ls ih =>
    intro st i env hv h0 hvt hx
    rw [show validSrc env (l :: ls) =
        (if isSkipLine (strip l) then validSrc env ls
         else if isAssignClass (strip l) then
           match parseAssignmentCore (strip l) with
           | .ok c => validSrc (c.varName :: env) ls
           | .error _ => false
         else if containsSub ((".connect(").toList) (strip l) then
           connectOk env (strip l) && validSrc env ls
         else false) from rfl] at hv
    rw [List.enumFrom]
    by_cases h1 : isSkipLine (strip l) = true
    · -- skipped line
      rw [if_pos h1] at hv
      have hpl := processLine_skip st i l h1
      rw [parseLoop_cons st i l ls (by rw [hpl]; exact h0), hpl]
      have hres := ih st (i + 1) env hv h0 hvt hx
      have hclaim : claimMachines ((i, l) :: List.enumFrom (i + 1) ls)
          st.machines.length = claimMachines (List.enumFrom (i + 1) ls)
          st.machines.length := by
        rw [show claimMachines ((i, l) :: List.enumFrom (i + 1) ls) st.machines.length =
            (if isSkipLine (strip l) then
              claimMachines (List.enumFrom (i + 1) ls) st.machines.length
             else if isAssignClass (strip l) then
               match parseAssignmentCore (strip l) with
               | .ok c => buildMachine c i (1 + 2 * ((st.machines.length : Nat) : Int)) ::
                   claimMachines (List.enumFrom (i + 1) ls) (st.machines.length + 1)
               | .error _ => claimMachines (List.enumFrom (i + 1) ls) st.machines.length
             else claimMachines (List.enumFrom (i + 1) ls) st.machines.length) from rfl]
        rw [if_pos h1]
      have hfa : isAssignLine l = false := by simp [isAssignLine, h1]
      have hfc : isConnectLine l = false := by simp [isConnectLine, h1]
      rw [hclaim]
      simpa [List.filter, hfa, hfc] using hres
    · by_cases h2 : isAssignClass (strip l) = true
      · -- assignment line
        rw [if_neg h1, if_pos h2] at hv
        cases hpa : parseAssignmentCore (strip l) with
        | error e =>
          rw [hpa] at hv
          simp at hv
        | ok c =>
          rw [hpa] at hv
          dsimp only at hv
          have hpl := processLine_assign st i l c (by simpa using h1) h2 hpa
          set st1 : PState :=
            { st with machines := st.machines ++ [buildMachine c i st.machineX],
                      vtable := setVar st.vtable c.varName st.machines.length,
                      machineX := st.machineX + 2 } with hst1
          have h01 : st1.error = none := h0
          have hvt1 : ∀ a : List Char,
              a ∈ st1.vtable.map Prod.fst ↔ a ∈ c.varName :: env := by
            intro a
            rw [hst1]
            dsimp only
            rw [setVar_keys st.vtable c.varName st.machines.length a]
            rw [List.mem_cons, hvt a]
          have hlen1 : st1.machines.length = st.machines.length + 1 := by
            rw [hst1]
            simp
          have hx1 : st1.machineX = 1 + 2 * (st1.machines.length : Int) := by
            rw [hst1]
            dsimp only
            rw [hx]
            simp
            ring
          have hres := ih st1 (i + 1) (c.varName :: env) hv h01 hvt1 hx1
          rw [parseLoop_cons st i l ls (by rw [hpl]; exact h0), hpl]
          have hclaim : claimMachines ((i, l) :: List.enumFrom (i + 1) ls)
              st.machines.length =
              buildMachine c i (1 + 2 * ((st.machines.length : Nat) : Int)) ::
                claimMachines (List.enumFrom (i + 1) ls) (st.machines.length + 1) := by
            rw [show claimMachines ((i, l) :: List.enumFrom (i + 1) ls) st.machines.length =
                (if isSkipLine (strip l) then
                  claimMachines (List.enumFrom (i + 1) ls) st.machines.length
                 else if isAssignClass (strip l) then
                   match parseAssignmentCore (strip l) with
                   | .ok c => buildMachine c i (1 + 2 * ((st.machines.length : Nat) : Int)) ::
                       claimMachines (List.enumFrom (i + 1) ls) (st.machines.length + 1)
                   | .error _ => claimMachines (List.enumFrom (i + 1) ls) st.machines.length
                 else claimMachines (List.enumFrom (i + 1) ls) st.machines.length) from rfl]
            rw [if_neg h1, if_pos h2, hpa]
          have h1b : isSkipLine (strip l) = false := by
            simpa using h1
          have hfa : isAssignLine l = true := by
            unfold isAssignLine
            rw [h1b, h2]
            rfl
          have hfc : isConnectLine l = false := by
            unfold isConnectLine
            rw [h2]
            simp
          refine ⟨hres.1, ?_, ?_, ?_, ?_⟩
          · rw [hres.2.1, hst1]
          · rw [hres.2.2.1, hclaim, hst1]
            dsimp only
            rw [hx]
            simp [List.append_assoc]
          · rw [hres.2.2.2.1, hlen1]
            simp only [List.filter, hfa]
            simp
            omega
          · rw [hres.2.2.2.2, hst1]
            simp only [List.filter, hfc]
      · -- connection line (the final else is impossible for valid input)
        by_cases h3 : containsSub ((".connect(").toList) (strip l) = true
        · rw [if_neg h1, if_neg h2, if_pos h3] at hv
          rw [Bool.and_eq_true] at hv
          obtain ⟨hok, hv2⟩ := hv
          cases hmc : matchConnect (strip l) with
          | none =>
            rw [show connectOk env (strip l) =
                (match matchConnect (strip l) with
                 | some (a, b) => decide (a ∈ env) && decide (b ∈ env)
                 | none => false) from rfl, hmc] at hok
            simp at hok
          | some ab =>
            obtain ⟨a, b⟩ := ab
            rw [show connectOk env (strip l) =
                (match matchConnect (strip l) with
                 | some (a, b) => decide (a ∈ env) && decide (b ∈ env)
                 | none => false) from rfl, hmc] at hok
            dsimp only at hok
            rw [Bool.and_eq_true, decide_eq_true_eq, decide_eq_true_eq] at hok
            have ha := lookup_isSome_of_mem a st.vtable ((hvt a).mpr hok.1)
            have hb := lookup_isSome_of_mem b st.vtable ((hvt b).mpr hok.2)
            obtain ⟨p, hpc⟩ := parseConnection_ok (strip l) st.vtable a b hmc ha hb
            have hpl := processLine_connect st i l p (by simpa using h1)
              (by simpa using h2) h3 hpc
            set st1 : PState := { st with connections := st.connections ++ [p] } with hst1
            have hres := ih st1 (i + 1) env hv2 h0 hvt hx
            rw [parseLoop_cons st i l ls (by rw [hpl]; exact h0), hpl]
            have hclaim : claimMachines ((i, l) :: List.enumFrom (i + 1) ls)
                st.machines.length = claimMachines (List.enumFrom (i + 1) ls)
                st.machines.length := by
              rw [show claimMachines ((i, l) :: List.enumFrom (i + 1) ls) st.machines.length =
                  (if isSkipLine (strip l) then
                    claimMachines (List.enumFrom (i + 1) ls) st.machines.length
                   else if isAssignClass (strip l) then
                     match parseAssignmentCore (strip l) with
                     | .ok c => buildMachine c i (1 + 2 * ((st.machines.length : Nat) : Int)) ::
                         claimMachines (List.enumFrom (i + 1) ls) (st.machines.length + 1)
                     | .error _ => claimMachines (List.enumFrom (i + 1) ls) st.machines.length
                   else claimMachines (List.enumFrom (i + 1) ls) st.machines.length) from rfl]
              rw [if_neg h1, if_neg h2]
            have h1b : isSkipLine (strip l) = false := by
              simpa using h1
            have h2b : isAssignClass (strip l) = false := by
              simpa using h2
            have hfa : isAssignLine l = false := by
              unfold isAssignLine
              rw [h2b]
              simp
            have hfc : isConnectLine l = true := by
              unfold isConnectLine
              rw [h1b, h2b, h3]
              rfl
            refine ⟨hres.1, ?_, ?_, ?_, ?_⟩
            · rw [hres.2.1, hst1]
            · rw [hres.2.2.1, hclaim, hst1]
            · rw [hres.2.2.2.1, hst1]
              simp only [List.filter, hfa]
            · rw [hres.2.2.2.2, hst1]
              simp only [List.filter, hfc]
              simp
              omega
        · rw [if_neg h1, if_neg h2, if_neg h3] at hv
          simp at hv

/-- Claim C1: a source of blank/comment lines, valid known-type
assignments and valid connection directives referencing only previously
declared identifiers parses without error; the machines are exactly one
per assignment line, in source order, the k-th declared machine at
x = 1 + 2k and y = 3, and there is exactly one connection per connect
line. -/
theorem parse_valid_source (lines : List (List Char))
    (h : validSrc [] lines = true) :
    (parseLines lines).error = none ∧
    (parseLines lines).errorLine = -1 ∧
    (parseLines lines).machines = claimMachines (List.enumFrom 0 lines) 0 ∧
    (parseLines lines).machines.length = (lines.filter isAssignLine).length ∧
    (parseLines lines).connections.length = (lines.filter isConnectLine).length ∧
    (∀ (k : Nat) (hk : k < (parseLines lines).machines.length),
      ((parseLines lines).machines.get ⟨k, hk⟩).x = 1 + 2 * (k : Int) ∧
      ((parseLines lines).machines.get ⟨k, hk⟩).y = 3) := by
  have hmain := parseLoop_valid lines initState 0 [] h rfl
    (by intro a; simp [initState]) (by simp [initState])
  have hm3 : (parseLines lines).machines = claimMachines (List.enumFrom 0 lines) 0 := by
    unfold parseLines
    rw [hmain.2.2.1]
    simp [initState]
  refine ⟨hmain.1, ?_, hm3, ?_, ?_, ?_⟩
  · unfold parseLines
    rw [hmain.2.1]
    rfl
  · unfold parseLines
    rw [hmain.2.2.2.1]
    simp [initState]
  · unfold parseLines
    rw [hmain.2.2.2.2]
    simp [initState]
  · have haux : ∀ ms : List PMachine, ms = claimMachines (List.enumFrom 0 lines) 0 →
        ∀ (k : Nat) (hk : k < ms.length),
          (ms.get ⟨k, hk⟩).x = 1 + 2 * (k : Int) ∧ (ms.get ⟨k, hk⟩).y = 3 := by
      intro ms hms
      subst hms
      intro k hk
      have hg := claimMachines_get (List.enumFrom 0 lines) 0 k hk
      rw [Nat.zero_add] at hg
      exact hg
    exact haux (parseLines lines).machines hm3

/-- A five-line valid source: comment, two assignments, a blank line and
one connection. -/
def linesW : List (List Char) :=
[("# build a tiny factory").toList,
 ("src = Source(\"circle\", \"white\")").toList,
 ("").toList,
 ("p = Painter(\"red\")").toList,
 ("src.connect(p)").toList]

/-- Witness for the C1 theorem at a concrete valid source. -/
theorem parse_valid_source_witness :
    (parseLines linesW).error = none ∧
    (parseLines linesW).errorLine = -1 ∧
    (parseLines linesW).machines.length = (linesW.filter isAssignLine).length ∧
    (parseLines linesW).connections.length = (linesW.filter isConnectLine).length :=
  ⟨(parse_valid_source linesW (by decide)).1,
   (parse_valid_source linesW (by decide)).2.1,
   (parse_valid_source linesW (by decide)).2.2.2.1,
   (parse_valid_source linesW (by decide)).2.2.2.2.1⟩

/-- Witness for the C3 theorem at a concrete three-line source. -/
theorem parse_first_error_frame_witness :
    parseLines (preW ++ lineW :: restW) =
      processLine (parseLoop initState 0 preW) preW.length lineW ∧
    (parseLines (preW ++ lineW :: restW)).error ≠ none ∧
    (parseLines (preW ++ lineW :: restW)).errorLine = ((preW.length : Nat) : Int) ∧
    (parseLines (preW ++ lineW :: restW)).machines = (parseLoop initState 0 preW).machines ∧
    (parseLines (preW ++ lineW :: restW)).connections =
      (parseLoop initState 0 preW).connections :=
  parse_first_error_frame preW lineW restW (by decide) (by decide)

/-! Embedding of the machine-local emission logic (machines.py):
Machine.send and SplitterMachine.send/evaluate_condition.  A machine
sees its outgoing connections as a list; items are a type parameter.
Transit progress is a rational (Python float). -/

/-- An outgoing connection as the sending machine sees it: its from/to
ports and the in-transit list of (item, progress) pairs. -/
structure SConn (ι : Type) where
  fromPort : String
  toPort : String
  transit : List (ι × ℚ)
deriving DecidableEq

/-- Embedding of Connection.send: append the item with progress 0. -/
def connSend {ι : Type} (c : SConn ι) (item : ι) : SConn ι :=
{ c with transit := c.transit ++ [(item, 0)] }

/-- Embedding of Machine.send: with no outgoing connection the item goes
to the output buffer; otherwise it is sent on every connection whose
from_port equals the emit port (and to no other). -/
def machineSend {ι : Type} (conns : List (SConn ι)) (buf : List ι)
    (item : ι) (port : String) : List (SConn ι) × List ι :=
if conns.isEmpty then (conns, buf ++ [item])
else (conns.map (fun c => if c.fromPort == port then connSend c item else c), buf)

/-- The early-returning loop of SplitterMachine.send: deliver to the
first connection with the given from_port, none when no such connection
exists. -/
def sendFirst {ι : Type} (port : String) (item : ι) :
    List (SConn ι) → Option (List (SConn ι))
| [] => none
| c :: cs =>
  if c.fromPort == port then some (connSend c item :: cs)
  else (sendFirst port item cs).map (fun cs2 => c :: cs2)

/-- Embedding of SplitterMachine.evaluate_condition: evalRes models the
raw Python eval of the condition code coerced by bool(); a raised
exception is none, and the except branch turns it into False. -/
def evaluateCondition {ι : Type} (evalRes : ι → Option Bool) (item : ι) : Bool :=
(evalRes item).getD false

/-- Embedding of SplitterMachine.send: a true condition delivers to the
first output_true connection, a false one to the first output_false
connection; when no connection with the selected port exists, fall back
to the default Machine.send. -/
def splitterSend {ι : Type} (evalRes : ι → Option Bool) (conns : List (SConn ι))
    (buf : List ι) (item : ι) (port : String) : List (SConn ι) × List ι :=
if evaluateCondition evalRes item then
  match sendFirst ("output_true") item conns with
  | some cs => (cs, buf)
  | none => machineSend conns buf item port
else
  match sendFirst ("output_false") item conns with
  | some cs => (cs, buf)
  | none => machineSend conns buf item port

/-- Claim C10: with no outgoing connection an emitted item is appended to
the output buffer; with at least one connection the item is sent exactly
to the connections whose from_port equals the emit port; when no
connection matches the port (but some exist) the item is dropped without
being buffered. -/
theorem machine_send_routing {ι : Type} (conns : List (SConn ι)) (buf : List ι)
    (item : ι) (port : String) :
    (conns = [] → machineSend conns buf item port = ([], buf ++ [item])) ∧
    (conns ≠ [] →
      machineSend conns buf item port =
        (conns.map (fun c => if c.fromPort == port then connSend c item else c), buf)) ∧
    (conns ≠ [] → (∀ c ∈ conns, c.fromPort ≠ port) →
      machineSend conns buf item port = (conns, buf)) := by
  refine ⟨?_, ?_, ?_⟩
  · intro h
    subst h
    rfl
  · intro h
    unfold machineSend
    rw [if_neg (by simpa using h)]
  · intro h hnp
    unfold machineSend
    rw [if_neg (by simpa using h)]
    have hmap : conns.map (fun c => if c.fromPort == port then connSend c item else c)
        = conns := by
      have hcg : ∀ c ∈ conns,
          (if c.fromPort == port then connSend c item else c) = id c := by
        intro c hc
        have hb : (c.fromPort == port) = false := by
          simpa using hnp c hc
        rw [hb]
        rfl
      rw [List.map_congr_left hcg, List.map_id]
    rw [hmap]

/-- An output_true-port connection with empty transit. -/
def connW : SConn Nat := ⟨"output_true", "input", []⟩

/-- Witness for the C10 theorem: emission without connections buffers
the item; emission on the default port with only an output_true
connection present delivers nowhere and buffers nothing. -/
theorem machine_send_routing_witness :
    machineSend ([] : List (SConn Nat)) [] 7 ("output") = ([], [7]) ∧
    machineSend [connW] [] 7 ("output") = ([connW], []) :=
  ⟨(machine_send_routing ([] : List (SConn Nat)) [] 7 ("output")).1 rfl,
   (machine_send_routing [connW] [] 7 ("output")).2.2 (by simp)
     (by decide)⟩

/-- Claim C2: evaluator errors count as false; a true condition routes to
the first output_true connection and a false one to the first
output_false connection; with no connection on the selected port the
default emission runs; consequently, with only an output_true connection
present, a true-condition item is delivered on it and a false-condition
(or erroring) item is silently dropped: no connection changes, nothing
is buffered, and no error is raised. -/
theorem splitter_send_routing {ι : Type} (evalRes : ι → Option Bool) (item : ι) :
    (evalRes item = none → evaluateCondition evalRes item = false) ∧
    (∀ (conns : List (SConn ι)) (buf : List ι) (port : String) (cs : List (SConn ι)),
      evaluateCondition evalRes item = true →
      sendFirst ("output_true") item conns = some cs →
      splitterSend evalRes conns buf item port = (cs, buf)) ∧
    (∀ (conns : List (SConn ι)) (buf : List ι) (port : String) (cs : List (SConn ι)),
      evaluateCondition evalRes item = false →
      sendFirst ("output_false") item conns = some cs →
      splitterSend evalRes conns buf item port = (cs, buf)) ∧
    (∀ (conns : List (SConn ι)) (buf : List ι) (port : String),
      evaluateCondition evalRes item = true →
      sendFirst ("output_true") item conns = none →
      splitterSend evalRes conns buf item port = machineSend conns buf item port) ∧
    (∀ (conns : List (SConn ι)) (buf : List ι) (port : String),
      evaluateCondition evalRes item = false →
      sendFirst ("output_false") item conns = none →
      splitterSend evalRes conns buf item port = machineSend conns buf item port) ∧
    (∀ (c : SConn ι) (buf : List ι), c.fromPort = "output_true" →
      (evaluateCondition evalRes item = true →
        splitterSend evalRes [c] buf item ("output") = ([connSend c item], buf)) ∧
      (evaluateCondition evalRes item = false →
        splitterSend evalRes [c] buf item ("output") = ([c], buf))) := by
  refine ⟨?_, ?_, ?_, ?_, ?_, ?_⟩
  · intro h
    unfold evaluateCondition
    rw [h]
    rfl
  · intro conns buf port cs hcond hsf
    simp [splitterSend, hcond, hsf]
  · intro conns buf port cs hcond hsf
    simp [splitterSend, hcond, hsf]
  · intro conns buf port hcond hsf
    simp [splitterSend, hcond, hsf]
  · intro conns buf port hcond hsf
    simp [splitterSend, hcond, hsf]
  · intro c buf hfp
    constructor
    · intro hcond
      simp [splitterSend, hcond, sendFirst, hfp]
    · intro hcond
      simp [splitterSend, hcond, sendFirst, hfp, machineSend]

/-- The condition evaluator of a concrete splitter scenario: item 0
makes the evaluator raise, item 1 evaluates to True, other items to
False (the red/blue alternation of the spec scenario). -/
def condEvalW : Nat → Option Bool :=
fun n => if n == 0 then none else some (n == 1)

/-- Witness for the C2 theorem: with only an output_true connection, the
true item is delivered on it, the false item and the erroring item are
silently dropped. -/
theorem splitter_send_routing_witness :
    splitterSend condEvalW [connW] [] 1 ("output") = ([connSend connW 1], []) ∧
    splitterSend condEvalW [connW] [] 2 ("output") = ([connW], []) ∧
    splitterSend condEvalW [connW] [] 0 ("output") = ([connW], []) :=
  ⟨((splitter_send_routing condEvalW 1).2.2.2.2.2 connW [] rfl).1 (by decide),
   ((splitter_send_routing condEvalW 2).2.2.2.2.2 connW [] rfl).2 (by decide),
   ((splitter_send_routing condEvalW 0).2.2.2.2.2 connW [] rfl).2 (by decide)⟩

/-! Embedding of game_engine.Factory.  Python object identity is modeled
with numeric ids: machines carry a machine id, connection objects live
in a heap of (id, data) pairs; the factory connection list and the
machine-local connection lists hold ids.  Items flowing through the
factory are a type parameter.  The FunctionMachine inner-machine list is
omitted (it is not serialized and untouched by the operations below);
per-kind processing times and drawing state are omitted likewise. -/

/-- The per-kind state of a machine (the subclass fields of machines.py
relevant to the factory operations): configuration together with
kind-specific runtime accumulation state. -/
inductive MData (ι : Type) where
| source (shapeType color : String) (spawnInterval spawnTimer : ℚ) (autoSpawn : Bool)
| output (collected : List ι) (targetShape : Option ι) (requiredCount successCount : Nat)
| conveyor (direction : String)
| painter (targetColor : String)
| cutter
| rotator (degrees : Int)
| stacker (secondInput : List ι)
| splitter (conditionCode : String)
| looper (loopCount : Int) (currentLoop : Nat) (loopCode : String)
| function (functionName functionCode : String)
| packer (packSize : Int) (packageType : String) (currentPackage : Option (List ι))
| unpacker
| dictPacker (currentDict : Option (List (String × ι))) (itemCount : Nat) (targetSize : Nat)
| comprehension (transformCode filterCode : String)
deriving DecidableEq

/-- A machine as the Factory sees it: identity, grid position, per-kind
state, the shared buffers and processing state of the Machine base
class, and the machine-local connection id lists. -/
structure FMachine (ι : Type) where
  mid : Nat
  x : Int
  y : Int
  mdata : MData ι
  inputBuffer : List ι
  outputBuffer : List ι
  isProcessing : Bool
  currentItem : Option ι
  currentProcessTime : ℚ
  connsOut : List Nat
  connsIn : List Nat
deriving DecidableEq

/-- A connection object: endpoint machine ids, ports, the in-transit
(item, progress) list and the transfer speed. -/
structure ConnData (ι : Type) where
  fromId : Nat
  toId : Nat
  fromPort : String
  toPort : String
  transit : List (ι × ℚ)
  speed : ℚ
deriving DecidableEq

/-- The Factory state: machine list, connection id list, grid
(position-to-machine-id mapping as an association list with unique
keys), running flag, speed, and the heap of live connection objects
with the next fresh id. -/
structure Factory (ι : Type) where
  machines : List (FMachine ι)
  connections : List Nat
  grid : List ((Int × Int) × Nat)
  running : Bool
  speed : ℚ
  connHeap : List (Nat × ConnData ι)
  nextConn : Nat
deriving DecidableEq

def emptyFactory (ι : Type) : Factory ι :=
⟨[], [], [], false, 1, [], 0⟩

/-- Embedding of Factory.add_machine: fails without mutation when the
grid cell (m.x, m.y) is occupied; otherwise appends the machine and
records the grid cell. -/
def addMachine {ι : Type} (f : Factory ι) (m : FMachine ι) : Factory ι × Bool :=
if (List.lookup (m.x, m.y) f.grid).isSome then (f, false)
else ({ f with machines := f.machines ++ [m],
                grid := f.grid ++ [((m.x, m.y), m.mid)] }, true)

/-- Python del on a dict key, for an association list with unique keys:
remove the first entry with the key. -/
def eraseKey : List ((Int × Int) × Nat) → (Int × Int) → List ((Int × Int) × Nat)
| [], _ => []
| (k, v) :: rest, p => if k == p then rest else (k, v) :: eraseKey rest p

/-- Python list.remove by identity: drop the first machine with the
given id. -/
def removeFirstMachine {ι : Type} : List (FMachine ι) → Nat → List (FMachine ι)
| [], _ => []
| m :: rest, i => if m.mid == i then rest else m :: removeFirstMachine rest i

/-- Whether the connection with the given id has the given machine as
either endpoint. -/
def connIncident {ι : Type} (f : Factory ι) (mid cid : Nat) : Bool :=
match List.lookup cid f.connHeap with
| some c => c.fromId == mid || c.toId == mid
| none => false

/-- Embedding of Factory.remove_machine: free the grid cell, drop the
machine from the list, and drop every connection with the machine as an
endpoint from the factory connection list.  The Python code then clears
connections_in/connections_out of the removed machine object only; the
connection objects themselves (the heap) and the other machines'
connection lists are untouched. -/
def removeMachine {ι : Type} (f : Factory ι) (m : FMachine ι) : Factory ι :=
{ f with
  grid := if (List.lookup (m.x, m.y) f.grid).isSome then eraseKey f.grid (m.x, m.y)
          else f.grid,
  machines := removeFirstMachine f.machines m.mid,
  connections := f.connections.filter (fun cid => !(connIncident f m.mid cid)) }

/-- Embedding of Factory.connect / Machine.connect_to: build a fresh
connection object, append its id to the source machine connections_out
and the target machine connections_in, and append it to the factory
connection list. -/
def connectM {ι : Type} (f : Factory ι) (aId bId : Nat) (fp tp : String) : Factory ι :=
let cid := f.nextConn
let cd : ConnData ι := ⟨aId, bId, fp, tp, [], 1⟩
{ f with
  machines := f.machines.map (fun m =>
    let m1 := if m.mid == aId then { m with connsOut := m.connsOut ++ [cid] } else m
    if m1.mid == bId then { m1 with connsIn := m1.connsIn ++ [cid] } else m1),
  connections := f.connections ++ [cid],
  connHeap := f.connHeap ++ [(cid, cd)],
  nextConn := cid + 1 }

/-- The per-machine part of Factory.reset: clear the shared buffers and
processing flags; the isinstance chain additionally resets a Source
spawn timer and an Output collected list and success count.  Nothing
else is touched: a Stacker second input, a Packer current package and a
DictPacker current dict survive, as does current_process_time. -/
def resetMData {ι : Type} : MData ι → MData ι
| .source st c si _ a => .source st c si 0 a
| .output _ tgt req _ => .output [] tgt req 0
| d => d

def resetMachine {ι : Type} (m : FMachine ι) : FMachine ι :=
{ m with inputBuffer := [], outputBuffer := [], isProcessing := false,
         currentItem := none, mdata := resetMData m.mdata }

/-- Clearing a heap entry when its id is in the given connection list
(the loop body of Factory.reset over self.connections). -/
def clearListed {ι : Type} (conns : List Nat) (pc : Nat × ConnData ι) :
    Nat × ConnData ι :=
if conns.contains pc.1 then (pc.1, { pc.2 with transit := [] }) else pc

/-- Embedding of Factory.reset: stop, reset every machine, and clear the
in-transit list of every connection in the factory connection list. -/
def resetFactory {ι : Type} (f : Factory ι) : Factory ι :=
{ f with running := false,
         machines := f.machines.map resetMachine,
         connHeap := f.connHeap.map (clearListed f.connections) }

/-- The serialized kind-specific config of Factory._get_machine_config:
a partial dict, one optional field per key it can contain. -/
structure SerCfg where
  shapeType : Option String
  color : Option String
  targetColor : Option String
  degrees : Option Int
  conditionCode : Option String
  loopCount : Option Int
  packSize : Option Int
deriving DecidableEq

def emptyCfg : SerCfg :=
⟨none, none, none, none, none, none, none⟩

/-- The machine_type string of each machine subclass. -/
def machineTypeStr {ι : Type} : MData ι → String
| .source .. => "source"
| .output .. => "output"
| .conveyor .. => "conveyor"
| .painter .. => "painter"
| .cutter => "cutter"
| .rotator .. => "rotator"
| .stacker .. => "stacker"
| .splitter .. => "splitter"
| .looper .. => "looper"
| .function .. => "function"
| .packer .. => "packer"
| .unpacker => "unpacker"
| .dictPacker .. => "dict_packer"
| .comprehension .. => "comprehension"

/-- Embedding of Factory._get_machine_config (the isinstance chain). -/
def getMachineConfig {ι : Type} : MData ι → SerCfg
| .source st c _ _ _ => { emptyCfg with shapeType := some st, color := some c }
| .painter tc => { emptyCfg with targetColor := some tc }
| .rotator d => { emptyCfg with degrees := some d }
| .splitter cc => { emptyCfg with conditionCode := some cc }
| .looper lc _ _ => { emptyCfg with loopCount := some lc }
| .packer ps _ _ => { emptyCfg with packSize := some ps }
| _ => emptyCfg

/-- One machine entry of Factory.to_dict. -/
structure SerMachine where
  mtype : String
  x : Int
  y : Int
  config : SerCfg
deriving DecidableEq

/-- One connection entry of Factory.to_dict: indices into the serialized
machine array plus the ports. -/
structure SerConn where
  fromIdx : Nat
  toIdx : Nat
  fromPort : String
  toPort : String
deriving DecidableEq

def projSer {ι : Type} (m : FMachine ι) : SerMachine :=
⟨machineTypeStr m.mdata, m.x, m.y, getMachineConfig m.mdata⟩

/-- Python list.index by identity: the first position of the machine
with the given id. -/
def findMachineIdx {ι : Type} : List (FMachine ι) → Nat → Option Nat
| [], _ => none
| m :: rest, i =>
  if m.mid == i then some 0 else (findMachineIdx rest i).map (fun j => j + 1)

/-- The connection part of Factory.to_dict: none models the ValueError
that list.index raises when an endpoint is not in the machine list. -/
def serConns {ι : Type} (f : Factory ι) : List Nat → Option (List SerConn)
| [] => some []
| cid :: rest =>
  match List.lookup cid f.connHeap with
  | none => none
  | some c =>
    match findMachineIdx f.machines c.fromId, findMachineIdx f.machines c.toId with
    | some fi, some ti =>
      match serConns f rest with
      | some l => some (SerConn.mk fi ti c.fromPort c.toPort :: l)
      | none => none
    | _, _ => none

/-- Embedding of Factory.to_dict: the ordered machine list (kind,
position, kind-specific config) and the index-pair connection list. -/
def toDict {ι : Type} (f : Factory ι) : Option (List SerMachine × List SerConn) :=
match serConns f f.connections with
| some scs => some (f.machines.map projSer, scs)
| none => none

/-- Embedding of machines.create_machine: the class map with
ConveyorMachine as the default for unknown type strings, each class
constructed with its default configuration and empty runtime state. -/
def createMachine (ι : Type) (ty : String) (x y : Int) (mid : Nat) : FMachine ι :=
{ mid := mid, x := x, y := y,
  mdata :=
    if ty == "source" then .source ("circle") ("white") 2 0 true
    else if ty == "output" then .output [] none 1 0
    else if ty == "conveyor" then .conveyor ("right")
    else if ty == "painter" then .painter ("red")
    else if ty == "cutter" then .cutter
    else if ty == "rotator" then .rotator 90
    else if ty == "stacker" then .stacker []
    else if ty == "splitter" then .splitter ("shape.color == \x27red\x27")
    else if ty == "looper" then .looper 3 0 ("for i in range(3):")
    else if ty == "function" then .function ("my_function") ("")
    else if ty == "packer" then .packer 3 ("list") none
    else if ty == "unpacker" then .unpacker
    else if ty == "dict_packer" then .dictPacker none 0 3
    else if ty == "comprehension" then .comprehension ("shape.paint(\x27red\x27)") ("True")
    else .conveyor ("right"),
  inputBuffer := [], outputBuffer := [], isProcessing := false, currentItem := none,
  currentProcessTime := 0, connsOut := [], connsIn := [] }

/-- Embedding of Factory._apply_machine_config (the isinstance chain
with per-key defaults). -/
def applyMachineConfig {ι : Type} (m : FMachine ι) (cfg : SerCfg) : FMachine ι :=
{ m with mdata :=
  match m.mdata with
  | .source _ _ si t a =>
      .source (cfg.shapeType.getD ("circle")) (cfg.color.getD ("white")) si t a
  | .painter _ => .painter (cfg.targetColor.getD ("red"))
  | .rotator _ => .rotator (cfg.degrees.getD 90)
  | .splitter _ => .splitter (cfg.conditionCode.getD ("True"))
  | .looper _ cl lc => .looper (cfg.loopCount.getD 3) cl lc
  | .packer _ pt cp => .packer (cfg.packSize.getD 3) pt cp
  | d => d }

/-- The machine-creation loop of Factory.from_dict: create, configure
and add each machine (the add result is ignored; a fresh object identity
is consumed either way). -/
def fromDictMachines (ι : Type) : List SerMachine → Factory ι → Nat → Factory ι
| [], f, _ => f
| sm :: rest, f, nid =>
  fromDictMachines ι rest
    (addMachine f (applyMachineConfig (createMachine ι sm.mtype sm.x sm.y nid) sm.config)).1
    (nid + 1)

/-- The connection loop of Factory.from_dict: bounds-check both indices
and connect the machines at those positions. -/
def fromDictConns (ι : Type) : List SerConn → Factory ι → Factory ι
| [], f => f
| sc :: rest, f =>
  if sc.fromIdx < f.machines.length && sc.toIdx < f.machines.length then
    match f.machines.get? sc.fromIdx, f.machines.get? sc.toIdx with
    | some a, some b => fromDictConns ι rest (connectM f a.mid b.mid sc.fromPort sc.toPort)
    | _, _ => fromDictConns ι rest f
  else fromDictConns ι rest f

/-- Embedding of Factory.from_dict. -/
def fromDict (ι : Type) (data : List SerMachine × List SerConn) : Factory ι :=
fromDictConns ι data.2 (fromDictMachines ι data.1 (emptyFactory ι) 0)

/-- The spawn timer of a Source machine. -/
def spawnTimerOf {ι : Type} : MData ι → Option ℚ
| .source _ _ _ t _ => some t
| _ => none

/-- The collected list of an Output machine. -/
def collectedOf {ι : Type} : MData ι → Option (List ι)
| .output col _ _ _ => some col
| _ => none

/-- The success count of an Output machine. -/
def successCountOf {ι : Type} : MData ι → Option Nat
| .output _ _ _ sc => some sc
| _ => none

/-- The second input buffer of a Stacker machine. -/
def secondInputOf {ι : Type} : MData ι → Option (List ι)
| .stacker si => some si
| _ => none

/-- The partial package of a Packer machine. -/
def currentPackageOf {ι : Type} : MData ι → Option (Option (List ι))
| .packer _ _ cp => some cp
| _ => none

/-- A stacker holding one item in its second input buffer. -/
def stackerW : FMachine Nat :=
⟨0, 1, 3, .stacker [5], [], [], false, none, 0, [], []⟩

/-- A packer holding a partial package of one item. -/
def packerW : FMachine Nat :=
⟨1, 3, 3, .packer 3 ("list") (some [7]), [], [], false, none, 0, [], []⟩

/-- A running factory containing the stacker and the packer. -/
def accumF : Factory Nat :=
⟨[stackerW, packerW], [], [((1, 3), 0), ((3, 3), 1)], true, 1, [], 0⟩

/-- Claim C6 counterexample: the claim says reset clears machine-internal
accumulation buffers such as a Stacker second input and a Packer partial
package.  After reset, the stacker still holds its second-input item and
the packer still holds its partial package: Factory.reset touches only
input/output buffers, processing flags, Source spawn timers and Output
counters. -/
theorem reset_keeps_accumulators_cex :
    ((resetFactory accumF).machines.get? 0).map (fun m => m.mdata) =
      some (MData.stacker [5]) ∧
    ((resetFactory accumF).machines.get? 1).map (fun m => m.mdata) =
      some (MData.packer 3 ("list") (some [7])) ∧
    MData.stacker ([5] : List Nat) ≠ MData.stacker [] ∧
    MData.packer 3 ("list") (some ([7] : List Nat)) ≠ MData.packer 3 ("list") none := by
  refine ⟨by decide, by decide, by decide, by decide⟩

/-- Items of a cleared heap entry have empty transit. -/
theorem lookup_cleared {ι : Type} (conns : List Nat) (heap : List (Nat × ConnData ι))
    (cid : Nat) (c : ConnData ι) (hmem : conns.contains cid = true) :
    List.lookup cid (heap.map (clearListed conns)) = some c → c.transit = [] := by
  induction heap with
  | nil =>
    intro hlk
    simp [List.lookup] at hlk
  | cons pc rest ih =>
    intro hlk
    rw [List.map_cons] at hlk
    rw [show List.lookup cid (clearListed conns pc :: rest.map (clearListed conns)) =
        (match cid == (clearListed conns pc).1 with
         | true => some (clearListed conns pc).2
         | false => List.lookup cid (rest.map (clearListed conns))) from rfl] at hlk
    have hkey : (clearListed conns pc).1 = pc.1 := by
      unfold clearListed
      split <;> rfl
    rw [hkey] at hlk
    by_cases hck : (cid == pc.1) = true
    · rw [hck] at hlk
      dsimp only at hlk
      have hc : (clearListed conns pc).2 = c := by
        simpa using hlk
      have hcontains : conns.contains pc.1 = true := by
        have hcp : cid = pc.1 := by simpa using hck
        rw [← hcp]
        exact hmem
      rw [← hc]
      unfold clearListed
      rw [if_pos hcontains]
    · rw [show (cid == pc.1) = false by simpa using hck] at hlk
      exact ih hlk

/-- Claim C6 (amended): reset stops the factory, clears every machine's
input and output buffers, processing flag and current item, resets a
Source spawn timer and an Output collected list and success count,
clears the in-transit list of every listed connection, and leaves the
machine set (ids, positions, kinds, configs), the connection set and the
grid unchanged; machine-internal accumulation buffers — a Stacker second
input and a Packer partial package — are NOT cleared but preserved
as-is. -/
theorem reset_factory_spec {ι : Type} (f : Factory ι) :
    (resetFactory f).running = false ∧
    (resetFactory f).grid = f.grid ∧
    (resetFactory f).connections = f.connections ∧
    ((resetFactory f).machines.map (fun m =>
        (m.mid, m.x, m.y, machineTypeStr m.mdata, getMachineConfig m.mdata)) =
      f.machines.map (fun m =>
        (m.mid, m.x, m.y, machineTypeStr m.mdata, getMachineConfig m.mdata))) ∧
    (∀ m ∈ (resetFactory f).machines,
      m.inputBuffer = [] ∧ m.outputBuffer = [] ∧ m.isProcessing = false ∧
      m.currentItem = none ∧ (spawnTimerOf m.mdata).getD 0 = 0 ∧
      (collectedOf m.mdata).getD [] = [] ∧ (successCountOf m.mdata).getD 0 = 0) ∧
    ((resetFactory f).connHeap.map (fun pc =>
        (pc.1, pc.2.fromId, pc.2.toId, pc.2.fromPort, pc.2.toPort)) =
      f.connHeap.map (fun pc =>
        (pc.1, pc.2.fromId, pc.2.toId, pc.2.fromPort, pc.2.toPort))) ∧
    (∀ cid ∈ (resetFactory f).connections, ∀ c : ConnData ι,
      List.lookup cid (resetFactory f).connHeap = some c → c.transit = []) ∧
    ((resetFactory f).machines.map (fun m => secondInputOf m.mdata) =
      f.machines.map (fun m => secondInputOf m.mdata)) ∧
    ((resetFactory f).machines.map (fun m => currentPackageOf m.mdata) =
      f.machines.map (fun m => currentPackageOf m.mdata)) := by
  refine ⟨rfl, rfl, rfl, ?_, ?_, ?_, ?_, ?_, ?_⟩
  · show (f.machines.map resetMachine).map _ = _
    rw [List.map_map]
    refine List.map_congr_left ?_
    intro m _
    obtain ⟨mid, x, y, d, ib, ob, ip, ci, cpt, co, cin⟩ := m
    cases d <;> rfl
  · intro m hm
    rw [show (resetFactory f).machines = f.machines.map resetMachine from rfl] at hm
    obtain ⟨m0, _, hm0⟩ := List.mem_map.mp hm
    subst hm0
    obtain ⟨mid, x, y, d, ib, ob, ip, ci, cpt, co, cin⟩ := m0
    cases d <;>
      exact ⟨rfl, rfl, rfl, rfl, rfl, rfl, rfl⟩
  · show (f.connHeap.map (clearListed f.connections)).map _ = _
    rw [List.map_map]
    refine List.map_congr_left ?_
    intro pc _
    unfold clearListed
    dsimp only [Function.comp]
    split <;> rfl
  · intro cid hcid c hlk
    have hmem : f.connections.contains cid = true := by
      rw [show (resetFactory f).connections = f.connections from rfl] at hcid
      exact List.elem_iff.mpr hcid
    exact lookup_cleared f.connections f.connHeap cid c hmem hlk
  · show (f.machines.map resetMachine).map _ = _
    rw [List.map_map]
    refine List.map_congr_left ?_
    intro m _
    obtain ⟨mid, x, y, d, ib, ob, ip, ci, cpt, co, cin⟩ := m
    cases d <;> rfl
  · show (f.machines.map resetMachine).map _ = _
    rw [List.map_map]
    refine List.map_congr_left ?_
    intro m _
    obtain ⟨mid, x, y, d, ib, ob, ip, ci, cpt, co, cin⟩ := m
    cases d <;> rfl

/-- A key not among the association-list keys is not found. -/
theorem lookup_none_of_not_mem {α β : Type} [BEq α] [LawfulBEq α]
    (a : α) (l : List (α × β)) (h : a ∉ l.map Prod.fst) : List.lookup a l = none := by
  induction l with
  | nil => rfl
  | cons p rest ih =>
    obtain ⟨k, v⟩ := p
    simp only [List.map_cons, List.mem_cons] at h
    push_neg at h
    rw [show List.lookup a ((k, v) :: rest) =
        (match a == k with
         | true => some v
         | false => List.lookup a rest) from rfl]
    rw [show (a == k) = false by simpa using h.1]
    exact ih h.2

/-- Deleting a key from an association list with unique keys makes the
key unfindable. -/
theorem lookup_eraseKey_self (g : List ((Int × Int) × Nat)) (p : Int × Int)
    (hnd : (g.map Prod.fst).Nodup) : List.lookup p (eraseKey g p) = none := by
  induction g with
  | nil => rfl
  | cons kv rest ih =>
    obtain ⟨k, v⟩ := kv
    simp only [List.map_cons, List.nodup_cons] at hnd
    rw [show eraseKey ((k, v) :: rest) p =
        (if k == p then rest else (k, v) :: eraseKey rest p) from rfl]
    by_cases hk : (k == p) = true
    · rw [if_pos hk]
      have hkp : k = p := by simpa using hk
      subst hkp
      exact lookup_none_of_not_mem k rest hnd.1
    · rw [if_neg (by simpa using hk)]
      rw [show List.lookup p ((k, v) :: eraseKey rest p) =
          (match p == k with
           | true => some v
           | false => List.lookup p (eraseKey rest p)) from rfl]
      have hpk : (p == k) = false := by
        have : ¬ k = p := by simpa using hk
        simp
        exact fun hc => this hc.symm
      rw [hpk]
      exact ih hnd.2

/-- Removing a machine under unique machine ids leaves no machine with
that id. -/
theorem removeFirstMachine_no_mid {ι : Type} (ms : List (FMachine ι)) (i : Nat)
    (hnd : (ms.map FMachine.mid).Nodup) :
    ∀ m2 ∈ removeFirstMachine ms i, m2.mid ≠ i := by
  induction ms with
  | nil => intro m2 hm2; simp [removeFirstMachine] at hm2
  | cons m rest ih =>
    simp only [List.map_cons, List.nodup_cons] at hnd
    intro m2 hm2
    rw [show removeFirstMachine (m :: rest) i =
        (if m.mid == i then rest else m :: removeFirstMachine rest i) from rfl] at hm2
    by_cases hb : (m.mid == i) = true
    · rw [if_pos hb] at hm2
      have hmi : m.mid = i := by simpa using hb
      intro hc
      apply hnd.1
      rw [hmi, ← hc]
      exact List.mem_map_of_mem FMachine.mid hm2
    · rw [if_neg (by simpa using hb)] at hm2
      rcases List.mem_cons.mp hm2 with hm2 | hm2
      · subst hm2
        simpa using hb
      · exact ih hnd.2 m2 hm2

/-- Claim C7 (amended): remove_machine drops the machine (no machine
with its id remains when ids are unique), drops from the factory
connection list exactly the connections having the machine as an
endpoint, frees the grid cell so a subsequent add at the old position
succeeds — but the removed connections' in-flight buffers are NOT
cleared: the heap of connection objects is untouched (and the surviving
endpoint's local connection list still references them). -/
theorem remove_machine_spec {ι : Type} (f : Factory ι) (m : FMachine ι)
    (hkeys : (f.grid.map Prod.fst).Nodup) :
    (∀ cid ∈ (removeMachine f m).connections, ∀ c : ConnData ι,
      List.lookup cid (removeMachine f m).connHeap = some c →
      c.fromId ≠ m.mid ∧ c.toId ≠ m.mid) ∧
    (∀ cid ∈ f.connections, connIncident f m.mid cid = false →
      cid ∈ (removeMachine f m).connections) ∧
    ((removeMachine f m).connHeap = f.connHeap) ∧
    ((f.machines.map FMachine.mid).Nodup →
      ∀ m2 ∈ (removeMachine f m).machines, m2.mid ≠ m.mid) ∧
    (List.lookup (m.x, m.y) (removeMachine f m).grid = none) ∧
    (∀ m2 : FMachine ι, m2.x = m.x → m2.y = m.y →
      (addMachine (removeMachine f m) m2).2 = true ∧
      (addMachine (removeMachine f m) m2).1.machines =
        (removeMachine f m).machines ++ [m2]) := by
  have hgrid : List.lookup (m.x, m.y) (removeMachine f m).grid = none := by
    rw [show (removeMachine f m).grid =
        (if (List.lookup (m.x, m.y) f.grid).isSome then eraseKey f.grid (m.x, m.y)
         else f.grid) from rfl]
    by_cases hocc : (List.lookup (m.x, m.y) f.grid).isSome = true
    · rw [if_pos hocc]
      exact lookup_eraseKey_self f.grid (m.x, m.y) hkeys
    · rw [if_neg (by simpa using hocc)]
      rcases ho : List.lookup (m.x, m.y) f.grid with _ | v
      · rfl
      · rw [ho] at hocc
        simp at hocc
  refine ⟨?_, ?_, rfl, ?_, hgrid, ?_⟩
  · intro cid hcid c hlk
    rw [show (removeMachine f m).connections =
        f.connections.filter (fun cid => !(connIncident f m.mid cid)) from rfl] at hcid
    have hni := (List.mem_filter.mp hcid).2
    rw [show (removeMachine f m).connHeap = f.connHeap from rfl] at hlk
    rw [show connIncident f m.mid cid =
        (match List.lookup cid f.connHeap with
         | some c => c.fromId == m.mid || c.toId == m.mid
         | none => false) from rfl, hlk] at hni
    simp at hni
    exact ⟨hni.1, hni.2⟩
  · intro cid hcid hinc
    rw [show (removeMachine f m).connections =
        f.connections.filter (fun cid => !(connIncident f m.mid cid)) from rfl]
    exact List.mem_filter.mpr ⟨hcid, by rw [hinc]; rfl⟩
  · intro hnd m2 hm2
    exact removeFirstMachine_no_mid f.machines m.mid hnd m2 hm2
  · intro m2 hx2 hy2
    unfold addMachine
    rw [hx2, hy2, hgrid]
    exact ⟨rfl, rfl⟩

/-- A conveyor at (1, 3) with one outgoing connection (id 0). -/
def machA : FMachine Nat :=
⟨0, 1, 3, .conveyor ("right"), [], [], false, none, 0, [0], []⟩

/-- An output machine at (3, 3) with one incoming connection (id 0). -/
def machB : FMachine Nat :=
⟨1, 3, 3, .output [] none 1 0, [], [], false, none, 0, [], [0]⟩

/-- The connection from machA to machB with one item in flight. -/
def connAB : ConnData Nat :=
⟨0, 1, "output", "input", [(9, 0)], 1⟩

/-- A two-machine factory with one connection carrying an item. -/
def remF : Factory Nat :=
⟨[machA, machB], [0], [((1, 3), 0), ((3, 3), 1)], false, 1, [(0, connAB)], 1⟩

/-- Claim C7 counterexample: the claim says remove_machine clears the
in-flight buffers of the removed connections.  Removing machB drops the
connection from the factory list, but the connection object keeps its
in-flight item, and the surviving machine's connections_out still
references it. -/
theorem remove_machine_transit_not_cleared_cex :
    (removeMachine remF machB).connections = [] ∧
    List.lookup 0 (removeMachine remF machB).connHeap = some connAB ∧
    connAB.transit = [(9, 0)] ∧
    connAB.transit ≠ [] ∧
    ((removeMachine remF machB).machines.get? 0).map (fun m => m.connsOut) = some [0] := by
  refine ⟨by decide, by decide, by decide, by decide, by decide⟩

/-- A fresh machine placed at machB's old grid cell. -/
def machB2 : FMachine Nat :=
⟨2, 3, 3, .cutter, [], [], false, none, 0, [], []⟩

/-- Witness for the amended C7 theorem: the old cell of the removed
machine is free and a subsequent add there succeeds. -/
theorem remove_machine_spec_witness :
    List.lookup ((3 : Int), (3 : Int)) (removeMachine remF machB).grid = none ∧
    (addMachine (removeMachine remF machB) machB2).2 = true :=
  ⟨(remove_machine_spec remF machB (by decide)).2.2.2.2.1,
   ((remove_machine_spec remF machB (by decide)).2.2.2.2.2 machB2 rfl rfl).1⟩

/-- The machine list built by the creation loop of from_dict, with
consecutive fresh ids. -/
def buildList (ι : Type) : List SerMachine → Nat → List (FMachine ι)
| [], _ => []
| sm :: rest, nid =>
  applyMachineConfig (createMachine ι sm.mtype sm.x sm.y nid) sm.config ::
    buildList ι rest (nid + 1)

/-- The heap entries built by the connection loop of from_dict when the
machine ids equal the machine indices. -/
def connsBuildIdx {ι : Type} : List SerConn → Nat → List (Nat × ConnData ι)
| [], _ => []
| sc :: rest, cid =>
  (cid, ⟨sc.fromIdx, sc.toIdx, sc.fromPort, sc.toPort, [], 1⟩) ::
    connsBuildIdx rest (cid + 1)

/-- Re-creating a machine from its serialized kind and config restores
the kind and config (and the fresh id is the given one). -/
theorem roundtrip_machine {ι : Type} (d : MData ι) (x y : Int) (nid : Nat) :
    projSer (applyMachineConfig (createMachine ι (machineTypeStr d) x y nid)
      (getMachineConfig d)) = ⟨machineTypeStr d, x, y, getMachineConfig d⟩ ∧
    (applyMachineConfig (createMachine ι (machineTypeStr d) x y nid)
      (getMachineConfig d)).mid = nid := by
  cases d <;> exact ⟨rfl, rfl⟩

/-- Serializing the rebuilt machine list reproduces the serialized
list. -/
theorem buildList_projSer {ι : Type} (ms : List (FMachine ι)) :
    ∀ nid, (buildList ι (ms.map projSer) nid).map projSer = ms.map projSer := by
  induction ms with
  | nil => intro nid; rfl
  | cons m rest ih =>
    intro nid
    simp only [List.map_cons, buildList]
    rw [show projSer m = ⟨machineTypeStr m.mdata, m.x, m.y, getMachineConfig m.mdata⟩
      from rfl]
    rw [(roundtrip_machine m.mdata m.x m.y nid).1]
    rw [ih (nid + 1)]

/-- The rebuilt machines carry consecutive ids. -/
theorem buildList_mids {ι : Type} (sms : List SerMachine) :
    ∀ nid, (buildList ι sms nid).map FMachine.mid = List.range' nid sms.length := by
  induction sms with
  | nil => intro nid; rfl
  | cons sm rest ih =>
    intro nid
    simp only [buildList, List.map_cons, List.length_cons]
    rw [show List.range' nid (rest.length + 1) = nid :: List.range' (nid + 1) rest.length
      from rfl]
    rw [ih (nid + 1)]
    rfl

theorem buildList_length {ι : Type} (sms : List SerMachine) (nid : Nat) :
    (buildList ι sms nid).length = sms.length := by
  rw [← List.length_map (buildList ι sms nid) FMachine.mid, buildList_mids]
  simp

/-- Appending to an association list does not disturb a key absent from
the first part. -/
theorem lookup_append_none {α β : Type} [BEq α] (a : α) (l1 l2 : List (α × β))
    (h : List.lookup a l1 = none) : List.lookup a (l1 ++ l2) = List.lookup a l2 := by
  induction l1 with
  | nil => rfl
  | cons p rest ih =>
    obtain ⟨k, v⟩ := p
    rw [List.cons_append]
    rw [show List.lookup a ((k, v) :: (rest ++ l2)) =
        (match a == k with
         | true => some v
         | false => List.lookup a (rest ++ l2)) from rfl]
    rw [show List.lookup a ((k, v) :: rest) =
        (match a == k with
         | true => some v
         | false => List.lookup a rest) from rfl] at h
    by_cases hk : (a == k) = true
    · rw [hk] at h
      exact absurd h (by simp)
    · rw [show (a == k) = false by simpa using hk] at h ⊢
      exact ih h

/-- The machine-creation loop of from_dict adds every machine when the
positions are fresh and mutually distinct. -/
theorem fromDictMachines_build {ι : Type} (sms : List SerMachine) :
    ∀ (f : Factory ι) (nid : Nat),
      (∀ sm ∈ sms, List.lookup (sm.x, sm.y) f.grid = none) →
      (sms.map (fun sm => (sm.x, sm.y))).Nodup →
      (fromDictMachines ι sms f nid).machines = f.machines ++ buildList ι sms nid ∧
      (fromDictMachines ι sms f nid).connections = f.connections ∧
      (fromDictMachines ι sms f nid).connHeap = f.connHeap ∧
      (fromDictMachines ι sms f nid).nextConn = f.nextConn := by
  induction sms with
  | nil =>
    intro f nid h1 h2
    refine ⟨?_, rfl, rfl, rfl⟩
    simp [fromDictMachines, buildList]
  | cons sm rest ih =>
    intro f nid h1 h2
    simp only [List.map_cons, List.nodup_cons] at h2
    have hlook : List.lookup
        ((applyMachineConfig (createMachine ι sm.mtype sm.x sm.y nid) sm.config).x,
         (applyMachineConfig (createMachine ι sm.mtype sm.x sm.y nid) sm.config).y)
        f.grid = none := h1 sm (List.mem_cons_self sm rest)
    have hadd : addMachine f
        (applyMachineConfig (createMachine ι sm.mtype sm.x sm.y nid) sm.config) =
        ({ f with
            machines := f.machines ++
              [applyMachineConfig (createMachine ι sm.mtype sm.x sm.y nid) sm.config],
            grid := f.grid ++ [((sm.x, sm.y), nid)] }, true) := by
      unfold addMachine
      rw [hlook]
      rfl
    rw [show fromDictMachines ι (sm :: rest) f nid = fromDictMachines ι rest
        (addMachine f
          (applyMachineConfig (createMachine ι sm.mtype sm.x sm.y nid) sm.config)).1
        (nid + 1) from rfl, hadd]
    have hres := ih
      { f with
        machines := f.machines ++
          [applyMachineConfig (createMachine ι sm.mtype sm.x sm.y nid) sm.config],
        grid := f.grid ++ [((sm.x, sm.y), nid)] }
      (nid + 1)
      (by
        intro sm2 hsm2
        dsimp only
        have hne : ((sm2.x, sm2.y) == (sm.x, sm.y)) = false := by
          have : (sm2.x, sm2.y) ≠ (sm.x, sm.y) := by
            intro hc
            apply h2.1
            rw [← hc]
            exact List.mem_map_of_mem (fun sm => (sm.x, sm.y)) hsm2
          simpa using this
        rw [lookup_append_none (sm2.x, sm2.y) f.grid [((sm.x, sm.y), nid)]
          (h1 sm2 (List.mem_cons_of_mem sm hsm2))]
        rw [show List.lookup (sm2.x, sm2.y) [((sm.x, sm.y), nid)] =
            (match (sm2.x, sm2.y) == (sm.x, sm.y) with
             | true => some nid
             | false => (none : Option Nat)) from rfl, hne])
      h2.2
    refine ⟨?_, hres.2.1, hres.2.2.1, hres.2.2.2⟩
    rw [hres.1]
    dsimp only
    rw [List.append_assoc]
    rfl

/-- connectM changes only the machine-local connection lists (the
serialized view, the ids, the length), appends one connection id, one
heap entry, and bumps the fresh-id counter. -/
theorem connectM_fields {ι : Type} (f : Factory ι) (a b : Nat) (fp tp : String) :
    (connectM f a b fp tp).machines.map projSer = f.machines.map projSer ∧
    (connectM f a b fp tp).machines.map FMachine.mid = f.machines.map FMachine.mid ∧
    (connectM f a b fp tp).machines.length = f.machines.length ∧
    (connectM f a b fp tp).connections = f.connections ++ [f.nextConn] ∧
    (connectM f a b fp tp).connHeap = f.connHeap ++ [(f.nextConn, ⟨a, b, fp, tp, [], 1⟩)] ∧
    (connectM f a b fp tp).nextConn = f.nextConn + 1 := by
  refine ⟨?_, ?_, ?_, rfl, rfl, rfl⟩
  · show (f.machines.map _).map projSer = _
    rw [List.map_map]
    refine List.map_congr_left ?_
    intro m _
    by_cases h1 : (m.mid == a) = true <;> by_cases h2 : (m.mid == b) = true <;>
      simp [Function.comp, h1, h2, projSer]
  · show (f.machines.map _).map FMachine.mid = _
    rw [List.map_map]
    refine List.map_congr_left ?_
    intro m _
    by_cases h1 : (m.mid == a) = true <;> by_cases h2 : (m.mid == b) = true <;>
      simp [Function.comp, h1, h2, projSer]
  · show (f.machines.map _).length = _
    exact List.length_map f.machines _

/-- The connection loop of from_dict under in-bounds indices and
index-valued machine ids. -/
theorem fromDictConns_build {ι : Type} (scs : List SerConn) :
    ∀ (f : Factory ι),
      (∀ sc ∈ scs, sc.fromIdx < f.machines.length ∧ sc.toIdx < f.machines.length) →
      (f.machines.map FMachine.mid = List.range' 0 f.machines.length) →
      (fromDictConns ι scs f).machines.map projSer = f.machines.map projSer ∧
      (fromDictConns ι scs f).machines.map FMachine.mid = f.machines.map FMachine.mid ∧
      (fromDictConns ι scs f).machines.length = f.machines.length ∧
      (fromDictConns ι scs f).connections =
        f.connections ++ List.range' f.nextConn scs.length ∧
      (fromDictConns ι scs f).connHeap = f.connHeap ++ connsBuildIdx scs f.nextConn ∧
      (fromDictConns ι scs f).nextConn = f.nextConn + scs.length := by
  induction scs with
  | nil =>
    intro f _ _
    refine ⟨rfl, rfl, rfl, ?_, ?_, rfl⟩
    · simp [fromDictConns, List.range']
    · simp [fromDictConns, connsBuildIdx]
  | cons sc rest ih =>
    intro f hb hm
    have hbl := hb sc (List.mem_cons_self sc rest)
    have hcond : (decide (sc.fromIdx < f.machines.length) &&
        decide (sc.toIdx < f.machines.length)) = true := by
      simp [hbl.1, hbl.2]
    have hga : f.machines.get? sc.fromIdx = some (f.machines.get ⟨sc.fromIdx, hbl.1⟩) :=
      List.get?_eq_get hbl.1
    have hgb : f.machines.get? sc.toIdx = some (f.machines.get ⟨sc.toIdx, hbl.2⟩) :=
      List.get?_eq_get hbl.2
    have hmida : (f.machines.get ⟨sc.fromIdx, hbl.1⟩).mid = sc.fromIdx := by
      have h1 : (f.machines.map FMachine.mid).get? sc.fromIdx =
          some (f.machines.get ⟨sc.fromIdx, hbl.1⟩).mid := by
        rw [List.get?_map, hga]
        rfl
      rw [hm, List.get?_range' 0 1 (by simpa using hbl.1)] at h1
      simpa using h1.symm
    have hmidb : (f.machines.get ⟨sc.toIdx, hbl.2⟩).mid = sc.toIdx := by
      have h1 : (f.machines.map FMachine.mid).get? sc.toIdx =
          some (f.machines.get ⟨sc.toIdx, hbl.2⟩).mid := by
        rw [List.get?_map, hgb]
        rfl
      rw [hm, List.get?_range' 0 1 (by simpa using hbl.2)] at h1
      simpa using h1.symm
    rw [show fromDictConns ι (sc :: rest) f =
        (if sc.fromIdx < f.machines.length && sc.toIdx < f.machines.length then
          match f.machines.get? sc.fromIdx, f.machines.get? sc.toIdx with
          | some a, some b => fromDictConns ι rest (connectM f a.mid b.mid sc.fromPort sc.toPort)
          | _, _ => fromDictConns ι rest f
        else fromDictConns ι rest f) from rfl]
    rw [show (sc.fromIdx < f.machines.length && sc.toIdx < f.machines.length : Bool) =
        (decide (sc.fromIdx < f.machines.length) &&
          decide (sc.toIdx < f.machines.length)) from rfl]
    rw [hcond]
    simp only [if_true]
    rw [hga, hgb]
    have hcf := connectM_fields f (f.machines.get ⟨sc.fromIdx, hbl.1⟩).mid
      (f.machines.get ⟨sc.toIdx, hbl.2⟩).mid sc.fromPort sc.toPort
    have hres := ih (connectM f (f.machines.get ⟨sc.fromIdx, hbl.1⟩).mid
        (f.machines.get ⟨sc.toIdx, hbl.2⟩).mid sc.fromPort sc.toPort)
      (by
        intro sc2 hsc2
        rw [hcf.2.2.1]
        exact hb sc2 (List.mem_cons_of_mem sc hsc2))
      (by
        rw [hcf.2.1, hcf.2.2.1]
        exact hm)
    refine ⟨?_, ?_, ?_, ?_, ?_, ?_⟩
    · rw [hres.1, hcf.1]
    · rw [hres.2.1, hcf.2.1]
    · rw [hres.2.2.1, hcf.2.2.1]
    · rw [hres.2.2.2.1, hcf.2.2.2.1, hcf.2.2.2.2.2, List.append_assoc]
      rw [show [f.nextConn] ++ List.range' (f.nextConn + 1) rest.length =
          List.range' f.nextConn (rest.length + 1) from rfl]
      rfl
    · rw [hres.2.2.2.2.1, hcf.2.2.2.2.1, hcf.2.2.2.2.2, List.append_assoc]
      rw [hmida, hmidb]
      rfl
    · rw [hres.2.2.2.2.2, hcf.2.2.2.2.2]
      simp only [List.length_cons]
      omega

/-- list.index returns a position inside the list. -/
theorem findMachineIdx_lt {ι : Type} (ms : List (FMachine ι)) :
    ∀ (i j : Nat), findMachineIdx ms i = some j → j < ms.length := by
  induction ms with
  | nil =>
    intro i j h
    simp [findMachineIdx] at h
  | cons m rest ih =>
    intro i j h
    rw [show findMachineIdx (m :: rest) i =
        (if m.mid == i then some 0
         else (findMachineIdx rest i).map (fun j => j + 1)) from rfl] at h
    by_cases hb : (m.mid == i) = true
    · rw [if_pos hb] at h
      have : j = 0 := by simpa using h.symm
      subst this
      simp
    · rw [if_neg hb] at h
      rcases Option.map_eq_some'.mp h with ⟨j0, hj0, hj⟩
      subst hj
      have := ih i j0 hj0
      simp only [List.length_cons]
      omega

/-- When the machine ids are the consecutive range starting at k,
list.index of id (k + j) is j. -/
theorem findMachineIdx_range {ι : Type} (ms : List (FMachine ι)) :
    ∀ (k j : Nat), ms.map FMachine.mid = List.range' k ms.length →
      j < ms.length → findMachineIdx ms (k + j) = some j := by
  induction ms with
  | nil =>
    intro k j _ hj
    simp at hj
  | cons m rest ih =>
    intro k j hm hj
    simp only [List.map_cons, List.length_cons] at hm
    rw [show List.range' k (rest.length + 1) = k :: List.range' (k + 1) rest.length
      from rfl] at hm
    have hmid : m.mid = k := (List.cons.injEq _ _ _ _ ▸ hm).1
    have hrest : rest.map FMachine.mid = List.range' (k + 1) rest.length :=
      (List.cons.injEq _ _ _ _ ▸ hm).2
    cases j with
    | zero =>
      rw [show findMachineIdx (m :: rest) (k + 0) =
          (if m.mid == (k + 0) then some 0
           else (findMachineIdx rest (k + 0)).map (fun j => j + 1)) from rfl]
      rw [if_pos (by simp [hmid])]
    | succ j0 =>
      rw [show findMachineIdx (m :: rest) (k + (j0 + 1)) =
          (if m.mid == (k + (j0 + 1)) then some 0
           else (findMachineIdx rest (k + (j0 + 1))).map (fun j => j + 1)) from rfl]
      rw [if_neg (by simp only [hmid, beq_iff_eq]; omega)]
      have hj0 : j0 < rest.length := by
        simp only [List.length_cons] at hj
        omega
      have := ih (k + 1) j0 hrest hj0
      rw [show k + (j0 + 1) = (k + 1) + j0 by omega, this]
      rfl

/-- Looking up the (cid + j)-th id in the built heap yields the entry of
the j-th serialized connection. -/
theorem lookup_connsBuildIdx {ι : Type} (scs : List SerConn) :
    ∀ (cid j : Nat) (sc : SerConn), scs.get? j = some sc →
      List.lookup (cid + j) (connsBuildIdx (ι := ι) scs cid) =
        some ⟨sc.fromIdx, sc.toIdx, sc.fromPort, sc.toPort, [], 1⟩ := by
  induction scs with
  | nil =>
    intro cid j sc h
    simp at h
  | cons sc0 rest ih =>
    intro cid j sc h
    cases j with
    | zero =>
      have hsc : sc0 = sc := by simpa using h
      subst hsc
      rw [show connsBuildIdx (ι := ι) (sc0 :: rest) cid =
          (cid, ⟨sc0.fromIdx, sc0.toIdx, sc0.fromPort, sc0.toPort, [], 1⟩) ::
            connsBuildIdx rest (cid + 1) from rfl]
      rw [show List.lookup (cid + 0)
          ((cid, (⟨sc0.fromIdx, sc0.toIdx, sc0.fromPort, sc0.toPort, [], 1⟩ : ConnData ι)) ::
            connsBuildIdx rest (cid + 1)) =
          (match (cid + 0) == cid with
           | true => some ⟨sc0.fromIdx, sc0.toIdx, sc0.fromPort, sc0.toPort, [], 1⟩
           | false => List.lookup (cid + 0) (connsBuildIdx rest (cid + 1))) from rfl]
      rw [show ((cid + 0) == cid) = true by simp]
    | succ j0 =>
      have hrest : rest.get? j0 = some sc := by simpa using h
      rw [show connsBuildIdx (ι := ι) (sc0 :: rest) cid =
          (cid, ⟨sc0.fromIdx, sc0.toIdx, sc0.fromPort, sc0.toPort, [], 1⟩) ::
            connsBuildIdx rest (cid + 1) from rfl]
      rw [show List.lookup (cid + (j0 + 1))
          ((cid, (⟨sc0.fromIdx, sc0.toIdx, sc0.fromPort, sc0.toPort, [], 1⟩ : ConnData ι)) ::
            connsBuildIdx rest (cid + 1)) =
          (match (cid + (j0 + 1)) == cid with
           | true => some ⟨sc0.fromIdx, sc0.toIdx, sc0.fromPort, sc0.toPort, [], 1⟩
           | false => List.lookup (cid + (j0 + 1)) (connsBuildIdx rest (cid + 1))) from rfl]
      rw [show ((cid + (j0 + 1)) == cid) = false by
        simp only [beq_eq_false_iff_ne]
        omega]
      rw [show cid + (j0 + 1) = (cid + 1) + j0 by omega]
      exact ih (cid + 1) j0 sc hrest

/-- Serializing the connections of a factory whose connection ids are
the consecutive range, whose heap holds the aligned entries, and whose
machine ids equal indices reproduces the serialized connection list. -/
theorem serConns_aligned {ι : Type} (scs2 : List SerConn) :
    ∀ (g : Factory ι) (cid : Nat),
      (∀ sc ∈ scs2, sc.fromIdx < g.machines.length ∧ sc.toIdx < g.machines.length) →
      (∀ (j : Nat) (sc : SerConn), scs2.get? j = some sc →
        List.lookup (cid + j) g.connHeap =
          some ⟨sc.fromIdx, sc.toIdx, sc.fromPort, sc.toPort, [], 1⟩) →
      (∀ i : Nat, i < g.machines.length → findMachineIdx g.machines i = some i) →
      serConns g (List.range' cid scs2.length) = some scs2 := by
  induction scs2 with
  | nil =>
    intro g cid _ _ _
    rfl
  | cons sc rest ih =>
    intro g cid hb hlk hfind
    have hbl := hb sc (List.mem_cons_self sc rest)
    simp only [List.length_cons]
    rw [show List.range' cid (rest.length + 1) = cid :: List.range' (cid + 1) rest.length
      from rfl]
    rw [show serConns g (cid :: List.range' (cid + 1) rest.length) =
        (match List.lookup cid g.connHeap with
         | none => none
         | some c =>
           match findMachineIdx g.machines c.fromId, findMachineIdx g.machines c.toId with
           | some fi, some ti =>
             match serConns g (List.range' (cid + 1) rest.length) with
             | some l => some (SerConn.mk fi ti c.fromPort c.toPort :: l)
             | none => none
           | _, _ => none) from rfl]
    have hlk0 := hlk 0 sc (by simp)
    rw [show cid + 0 = cid by omega] at hlk0
    rw [hlk0]
    dsimp only
    rw [hfind sc.fromIdx hbl.1, hfind sc.toIdx hbl.2]
    rw [ih g (cid + 1)
      (fun sc2 hsc2 => hb sc2 (List.mem_cons_of_mem sc hsc2))
      (fun j sc2 hj => by
        have := hlk (j + 1) sc2 (by simpa using hj)
        rw [show cid + (j + 1) = (cid + 1) + j by omega] at this
        exact this)
      hfind]

/-- Every index pair produced by the connection serialization is in
bounds. -/
theorem serConns_bounds {ι : Type} (f : Factory ι) :
    ∀ (l : List Nat) (scs : List SerConn), serConns f l = some scs →
      ∀ sc ∈ scs, sc.fromIdx < f.machines.length ∧ sc.toIdx < f.machines.length := by
  intro l
  induction l with
  | nil =>
    intro scs h sc hsc
    have : scs = [] := by simpa [serConns] using h.symm
    subst this
    simp at hsc
  | cons cid rest ih =>
    intro scs h sc hsc
    rw [show serConns f (cid :: rest) =
        (match List.lookup cid f.connHeap with
         | none => none
         | some c =>
           match findMachineIdx f.machines c.fromId, findMachineIdx f.machines c.toId with
           | some fi, some ti =>
             match serConns f rest with
             | some l => some (SerConn.mk fi ti c.fromPort c.toPort :: l)
             | none => none
           | _, _ => none) from rfl] at h
    rcases hc : List.lookup cid f.connHeap with _ | c
    · rw [hc] at h
      exact absurd h (by simp)
    · rw [hc] at h
      dsimp only at h
      rcases hfi : findMachineIdx f.machines c.fromId with _ | fi
      · rw [hfi] at h
        exact absurd h (by simp)
      · rw [hfi] at h
        rcases hti : findMachineIdx f.machines c.toId with _ | ti
        · rw [hti] at h
          exact absurd h (by simp)
        · rw [hti] at h
          dsimp only at h
          rcases hrest : serConns f rest with _ | l2
          · rw [hrest] at h
            exact absurd h (by simp)
          · rw [hrest] at h
            have hscs : SerConn.mk fi ti c.fromPort c.toPort :: l2 = scs := by
              simpa using h
            subst hscs
            rcases List.mem_cons.mp hsc with hsc | hsc
            · subst hsc
              exact ⟨findMachineIdx_lt f.machines c.fromId fi hfi,
                findMachineIdx_lt f.machines c.toId ti hti⟩
            · exact ih l2 hrest sc hsc

/-- Claim C5: for a factory whose machines occupy distinct grid cells,
deserializing its serialization yields a factory with the same ordered
list (hence the same multiset) of (kind, position, kind-specific config)
machine entries, and serializing again reproduces the identical
serialized machine list and index-pair connection list with the same
ports — the connections relate the same machine positions. -/
theorem serialize_roundtrip {ι : Type} (f : Factory ι)
    (sms : List SerMachine) (scs : List SerConn)
    (hpos : (f.machines.map (fun m => (m.x, m.y))).Nodup)
    (htd : toDict f = some (sms, scs)) :
    ((fromDict ι (sms, scs)).machines.map projSer = f.machines.map projSer) ∧
    ((((fromDict ι (sms, scs)).machines.map projSer : List SerMachine) : Multiset SerMachine) =
      ((f.machines.map projSer : List SerMachine) : Multiset SerMachine)) ∧
    toDict (fromDict ι (sms, scs)) = some (sms, scs) := by
  have hser : sms = f.machines.map projSer ∧ serConns f f.connections = some scs := by
    unfold toDict at htd
    rcases hsc : serConns f f.connections with _ | scs0
    · rw [hsc] at htd
      exact absurd htd (by simp)
    · rw [hsc] at htd
      dsimp only at htd
      have h2 := htd
      simp only [Option.some.injEq, Prod.mk.injEq] at h2
      exact ⟨h2.1.symm, by rw [h2.2]⟩
  obtain ⟨hsms, hscs⟩ := hser
  have hbounds := serConns_bounds f f.connections scs hscs
  have hsmpos : sms.map (fun sm => (sm.x, sm.y)) = f.machines.map (fun m => (m.x, m.y)) := by
    rw [hsms, List.map_map]
    rfl
  have hA := fromDictMachines_build sms (emptyFactory ι) 0
    (by intro sm _; rfl)
    (by rw [hsmpos]; exact hpos)
  have hAm : (fromDictMachines ι sms (emptyFactory ι) 0).machines = buildList ι sms 0 := by
    rw [hA.1]
    rfl
  have hAlen : (fromDictMachines ι sms (emptyFactory ι) 0).machines.length = sms.length := by
    rw [hAm]
    exact buildList_length sms 0
  have hAmid : (fromDictMachines ι sms (emptyFactory ι) 0).machines.map FMachine.mid =
      List.range' 0 (fromDictMachines ι sms (emptyFactory ι) 0).machines.length := by
    rw [hAm, buildList_length]
    exact buildList_mids sms 0
  have hAproj : (fromDictMachines ι sms (emptyFactory ι) 0).machines.map projSer = sms := by
    rw [hAm, hsms]
    exact buildList_projSer f.machines 0
  have hlenf : sms.length = f.machines.length := by
    rw [hsms]
    exact List.length_map f.machines projSer
  have hboundsA : ∀ sc ∈ scs,
      sc.fromIdx < (fromDictMachines ι sms (emptyFactory ι) 0).machines.length ∧
      sc.toIdx < (fromDictMachines ι sms (emptyFactory ι) 0).machines.length := by
    intro sc hsc
    rw [hAlen, hlenf]
    exact hbounds sc hsc
  have hB := fromDictConns_build scs (fromDictMachines ι sms (emptyFactory ι) 0)
    hboundsA hAmid
  have hGdef : fromDict ι (sms, scs) =
      fromDictConns ι scs (fromDictMachines ι sms (emptyFactory ι) 0) := rfl
  have hGproj : (fromDict ι (sms, scs)).machines.map projSer = sms := by
    rw [hGdef, hB.1, hAproj]
  have hGmid : (fromDict ι (sms, scs)).machines.map FMachine.mid =
      List.range' 0 (fromDict ι (sms, scs)).machines.length := by
    rw [hGdef, hB.2.1, hB.2.2.1, hAmid]
  have hGlen : (fromDict ι (sms, scs)).machines.length = sms.length := by
    rw [hGdef, hB.2.2.1, hAlen]
  have hGconns : (fromDict ι (sms, scs)).connections = List.range' 0 scs.length := by
    rw [hGdef, hB.2.2.2.1, hA.2.1, hA.2.2.2]
    rfl
  have hGheap : (fromDict ι (sms, scs)).connHeap = connsBuildIdx scs 0 := by
    rw [hGdef, hB.2.2.2.2.1, hA.2.2.1, hA.2.2.2]
    rfl
  have hGfind : ∀ i : Nat, i < (fromDict ι (sms, scs)).machines.length →
      findMachineIdx (fromDict ι (sms, scs)).machines i = some i := by
    intro i hi
    have := findMachineIdx_range (fromDict ι (sms, scs)).machines 0 i hGmid hi
    rw [Nat.zero_add] at this
    exact this
  have hGser : serConns (fromDict ι (sms, scs)) (List.range' 0 scs.length) = some scs := by
    refine serConns_aligned scs (fromDict ι (sms, scs)) 0 ?_ ?_ hGfind
    · intro sc hsc
      rw [hGlen, hlenf]
      exact hbounds sc hsc
    · intro j sc hj
      rw [hGheap, Nat.zero_add]
      have := lookup_connsBuildIdx (ι := ι) scs 0 j sc hj
      rw [Nat.zero_add] at this
      exact this
  refine ⟨?_, ?_, ?_⟩
  · rw [hGproj, hsms]
  · rw [hGproj, hsms]
  · unfold toDict
    rw [hGconns, hGser, hGproj]

/-- A source machine and an output machine for the round-trip witness. -/
def srcW : FMachine Nat :=
⟨0, 1, 3, .source ("circle") ("white") 2 0 true, [], [], false, none, 0, [0], []⟩

def outW : FMachine Nat :=
⟨1, 10, 3, .output [] none 1 0, [], [], false, none, 0, [], [0]⟩

/-- The connection between them. -/
def connSO : ConnData Nat :=
⟨0, 1, "output", "input", [], 1⟩

/-- A small two-machine factory with one connection. -/
def rtF : Factory Nat :=
⟨[srcW, outW], [0], [((1, 3), 0), ((10, 3), 1)], false, 1, [(0, connSO)], 1⟩

/-- Witness for the C5 theorem at the concrete two-machine factory. -/
theorem serialize_roundtrip_witness :
    ((fromDict Nat (rtF.machines.map projSer,
        [⟨0, 1, "output", "input"⟩])).machines.map projSer =
      rtF.machines.map projSer) ∧
    toDict (fromDict Nat (rtF.machines.map projSer, [⟨0, 1, "output", "input"⟩])) =
      some (rtF.machines.map projSer, [⟨0, 1, "output", "input"⟩]) :=
  ⟨(serialize_roundtrip rtF (rtF.machines.map projSer) [⟨0, 1, "output", "input"⟩]
      (by decide) (by decide)).1,
   (serialize_roundtrip rtF (rtF.machines.map projSer) [⟨0, 1, "output", "input"⟩]
      (by decide) (by decide)).2.2⟩

end PyFactory
